import Mathlib

/-!
SmartMatrix indexed layer.

A shallow embedding of `src/Layer_Indexed_Impl.h` (class `SMLayerIndexed`): the
palette-indexed pixel buffer with 1, 2, 4 or 8 bits per entry, the rotation
mappings of `getPixel` and `drawPixel`, `fillScreen` and the draw/refresh buffer
copy.

Conventions of the embedding.

* The backing region `indexedBitmap` is a caller-supplied `uint8_t *`; it is a
  map from byte offsets to byte values.  Every store truncates to eight bits.
* `uint16_t` and `uint8_t` values are natural numbers, `int` and `int16_t`
  values are integers.  The target is a 32-bit machine, so `int` arithmetic on
  coordinates of at most 16 bits is exact, and byte offsets into the region are
  taken to fit an `int`; a conversion to an unsigned type is written out as a
  reduction modulo `2 ^ 16` or `2 ^ 8`.
* `PALETTE_SIZE_FROM_OPTIONS` and `BIT_COUNT_FROM_OPTIONS` are not part of this
  file of the repository; their values are parameters of the constructor.
* By-reference output (`xyPixel`) is passed in and returned.
-/

namespace SmartMatrix

/-- Conversion of an `int` to `uint8_t`. -/
def toUInt8 (z : Int) : Nat := (z % 256).toNat

/-- Conversion of an `int` to `uint16_t`. -/
def toUInt16 (z : Int) : Nat := (z % 65536).toNat

/-- The orientation of the layer.  `unrecognised` stands for any value of the
enumeration's underlying type that is none of the four named ones. -/
inductive rotationDegrees
  | rotation0
  | rotation90
  | rotation180
  | rotation270
  | unrecognised
  deriving DecidableEq, Repr

open rotationDegrees

/-- Line 26: `const unsigned char indexedDrawBuffer = 0`. -/
def indexedDrawBuffer : Nat := 0

/-- Line 27: `const unsigned char indexedRefreshBuffer = 1`. -/
def indexedRefreshBuffer : Nat := 1

/-- The data members of `SMLayerIndexed<RGB, optionFlags>` that the embedded
operations read or write (those of the base layer included). -/
structure SMLayerIndexed (RGB : Type) where
  indexedBitmap : Nat → Nat
  palette : Nat → RGB
  paletteSize : Nat
  entryBits : Nat
  entryMask : Nat
  entryPack : Nat
  matrixWidth : Nat
  matrixHeight : Nat
  localWidth : Nat
  localHeight : Nat
  rotation : rotationDegrees
  zeroTransparent : Bool
  copyPending : Bool

variable {RGB : Type}

/-- Line 31: `#define INDEXED_BUFFER_ROW_SIZE (this->localWidth * entryBits / 8)`. -/
def INDEXED_BUFFER_ROW_SIZE (s : SMLayerIndexed RGB) : Nat :=
  s.localWidth * s.entryBits / 8

/-- Line 32: `#define INDEXED_BUFFER_SIZE (INDEXED_BUFFER_ROW_SIZE * this->localHeight)`. -/
def INDEXED_BUFFER_SIZE (s : SMLayerIndexed RGB) : Nat :=
  INDEXED_BUFFER_ROW_SIZE s * s.localHeight

/-- Lines 35-44, the constructor: it assigns the bitmap, the palette, the two
option-derived constants, the mask and pack values and the matrix size, and
leaves every other member as it was. -/
def SMLayerIndexed.construct (s0 : SMLayerIndexed RGB) (PALETTE_SIZE BIT_COUNT : Nat)
    (bitmap : Nat → Nat) (colors : Nat → RGB) (width height : Nat) : SMLayerIndexed RGB :=
  { s0 with
    indexedBitmap := bitmap
    palette := colors
    paletteSize := PALETTE_SIZE
    entryBits := BIT_COUNT
    entryMask := 0xFF >>> (8 - BIT_COUNT)
    entryPack := 8 / BIT_COUNT
    matrixWidth := width
    matrixHeight := height }

/-- The relation the constructor establishes between `entryBits`, `entryMask`
and `entryPack`, for one of the four supported entry widths. -/
structure Constructed (s : SMLayerIndexed RGB) : Prop where
  bits : s.entryBits = 1 ∨ s.entryBits = 2 ∨ s.entryBits = 4 ∨ s.entryBits = 8
  mask : s.entryMask = 0xFF >>> (8 - s.entryBits)
  pack : s.entryPack = 8 / s.entryBits

/-- The local dimensions the base layer keeps for each rotation: the matrix
dimensions for 0 and 180 degrees, swapped for 90 and 270 degrees. -/
def RotatedDims (s : SMLayerIndexed RGB) : Prop :=
  match s.rotation with
  | rotation0 | rotation180 =>
      s.localWidth = s.matrixWidth ∧ s.localHeight = s.matrixHeight
  | rotation90 | rotation270 =>
      s.localWidth = s.matrixHeight ∧ s.localHeight = s.matrixWidth
  | unrecognised => False

/-- The local width that goes with a rotation of a `matrixWidth` by
`matrixHeight` matrix. -/
def rotatedWidth (rotation : rotationDegrees) (matrixWidth matrixHeight : Nat) : Nat :=
  match rotation with
  | rotation90 | rotation270 => matrixHeight
  | _ => matrixWidth

/-- The local height that goes with a rotation of a `matrixWidth` by
`matrixHeight` matrix. -/
def rotatedHeight (rotation : rotationDegrees) (matrixWidth matrixHeight : Nat) : Nat :=
  match rotation with
  | rotation90 | rotation270 => matrixWidth
  | _ => matrixHeight

/-- Lines 56-77 of `getPixel`: the switch that converts hardware coordinates to
local ones.  The results are stored in `uint16_t` variables; the default case
returns from `getPixel`, which is `none` here. -/
def toLocal (rotation : rotationDegrees) (matrixWidth matrixHeight : Nat)
    (hardwareX hardwareY : Nat) : Option (Nat × Nat) :=
  match rotation with
  | rotation0 => some (hardwareX, hardwareY)
  | rotation180 =>
      some (toUInt16 (((matrixWidth : Int) - 1) - hardwareX),
            toUInt16 (((matrixHeight : Int) - 1) - hardwareY))
  | rotation90 =>
      some (hardwareY, toUInt16 (((matrixWidth : Int) - 1) - hardwareX))
  | rotation270 =>
      some (toUInt16 (((matrixHeight : Int) - 1) - hardwareY), hardwareX)
  | unrecognised => none

/-- Lines 181-194 of `drawPixel`: the if-chain that maps the local coordinates
to `int hwx, hwy`.  The last branch is a plain `else`. -/
def toHW (rotation : rotationDegrees) (matrixWidth matrixHeight : Nat)
    (x y : Int) : Int × Int :=
  if rotation = rotation0 then (x, y)
  else if rotation = rotation180 then
    (((matrixWidth : Int) - 1) - x, ((matrixHeight : Int) - 1) - y)
  else if rotation = rotation90 then
    (((matrixWidth : Int) - 1) - y, x)
  else
    (y, ((matrixHeight : Int) - 1) - x)

/-- Lines 88-89 and 204-205: `uint8_t entryIndex = x % entryPack;`
`uint8_t entryShift = (entryPack - entryIndex - 1) * entryBits;`. -/
def entryShift (s : SMLayerIndexed RGB) (x : Nat) : Nat :=
  let entryIndex := toUInt8 ((x % s.entryPack : Nat) : Int)
  toUInt8 (((s.entryPack : Int) - entryIndex - 1) * s.entryBits)

/-- Lines 83-91 of `getPixel`: the entry of local pixel `(x, y)`, read from the
refresh buffer. -/
def readEntry (s : SMLayerIndexed RGB) (localScreenX localScreenY : Nat) : Nat :=
  if s.entryBits = 8 then
    s.indexedBitmap ((indexedRefreshBuffer * INDEXED_BUFFER_SIZE s)
      + (localScreenY * INDEXED_BUFFER_ROW_SIZE s) + localScreenX)
  else
    let entryBlock := s.indexedBitmap ((indexedRefreshBuffer * INDEXED_BUFFER_SIZE s)
      + (localScreenY * INDEXED_BUFFER_ROW_SIZE s) + (localScreenX * s.entryBits / 8))
    (entryBlock >>> entryShift s localScreenX) &&& s.entryMask

/-- Lines 52-99, `getPixel`: the returned flag and the value of `xyPixel` after
the call.  The tests `localScreenX < 0` and `localScreenY < 0` of line 80 are on
unsigned values and never hold. -/
def getPixel (s : SMLayerIndexed RGB) (hardwareX hardwareY : Nat) (xyPixel : RGB) :
    Bool × RGB :=
  match toLocal s.rotation s.matrixWidth s.matrixHeight hardwareX hardwareY with
  | none => (false, xyPixel)
  | some (localScreenX, localScreenY) =>
    if localScreenX ≥ s.localWidth ∨ localScreenY ≥ s.localHeight then
      (false, xyPixel)
    else
      let entry := readEntry s localScreenX localScreenY
      if entry ≠ 0 ∨ s.zeroTransparent = false then
        (true, s.palette entry)
      else
        (false, xyPixel)

/-- A store of one `uint8_t` at offset `a`. -/
def store (mem : Nat → Nat) (a v : Nat) : Nat → Nat :=
  fun b => if b = a then v % 256 else mem b

/-- The low eight bits of `~v` for a non-negative `int` value `v`. -/
def complement8 (v : Nat) : Nat := 255 ^^^ (v % 256)

/-- Lines 206-207 of `drawPixel`, on the byte `old` that `entryPtr` points to:
`*entryPtr &= ~(entryMask << entryShift); *entryPtr |= (index << entryShift);`. -/
def packedWrite (old entryMask index shift : Nat) : Nat :=
  (((old &&& complement8 (entryMask <<< shift)) % 256) ||| (index <<< shift)) % 256

/-- Lines 172-209, `drawPixel`.  `x` and `y` are `int16_t` values, `index` a
`uint8_t` value.  After the bounds check `hwx` and `hwy` are non-negative, so
the offsets are computed on natural numbers. -/
def drawPixel (s : SMLayerIndexed RGB) (x y : Int) (index : Nat) : SMLayerIndexed RGB :=
  if index > s.paletteSize then s
  else
    let hw := toHW s.rotation s.matrixWidth s.matrixHeight x y
    let hwx := hw.1
    let hwy := hw.2
    if hwx < 0 ∨ hwy < 0 ∨ hwx ≥ (s.localWidth : Int) ∨ hwy ≥ (s.localHeight : Int) then s
    else if s.entryBits = 8 then
      { s with
        indexedBitmap := store s.indexedBitmap
          ((indexedRefreshBuffer * INDEXED_BUFFER_SIZE s)
            + (hwy.toNat * INDEXED_BUFFER_ROW_SIZE s) + hwx.toNat) index }
    else
      let entryPtr := (indexedRefreshBuffer * INDEXED_BUFFER_SIZE s)
        + (hwy.toNat * INDEXED_BUFFER_ROW_SIZE s) + (hwx.toNat * s.entryBits / 8)
      { s with
        indexedBitmap := store s.indexedBitmap entryPtr
          (packedWrite (s.indexedBitmap entryPtr) s.entryMask index (entryShift s hwx.toNat)) }

/-- Lines 145-149 of `fillScreen`: the loop
`for (uint8_t shift = entryBits; shift < 8; shift += entryBits)` with body
`fillValue <<= entryBits; fillValue |= index;`.  The result is `none` when the
loop has not finished within `fuel` tests of its condition. -/
def fillValueLoop (entryBits index : Nat) : Nat → Nat → Nat → Option Nat
  | 0, _, _ => none
  | fuel + 1, shift, fillValue =>
    if shift < 8 then
      fillValueLoop entryBits index fuel ((shift + entryBits) % 256)
        ((((fillValue <<< entryBits) % 256) ||| index) % 256)
    else some fillValue

/-- The effect of `memset(&indexedBitmap[start], value, count)`. -/
def memset (mem : Nat → Nat) (start value count : Nat) : Nat → Nat :=
  fun b => if start ≤ b ∧ b < start + count then value % 256 else mem b

/-- The effect of `memcpy(&indexedBitmap[dst], &indexedBitmap[src], count)`. -/
def memcpy (mem : Nat → Nat) (dst src count : Nat) : Nat → Nat :=
  fun b => if dst ≤ b ∧ b < dst + count then mem (src + (b - dst)) else mem b

/-- Lines 143-152, `fillScreen`.  The loop runs at most seven times when
`entryBits` is positive, so eight tests of its condition are enough; with
`entryBits = 0` the loop of the source does not end and the result is `none`. -/
def fillScreen (s : SMLayerIndexed RGB) (index : Nat) : Option (SMLayerIndexed RGB) :=
  match fillValueLoop s.entryBits index 8 (s.entryBits % 256) (index % 256) with
  | none => none
  | some fillValue =>
    some { s with
      indexedBitmap := memset s.indexedBitmap
        (indexedRefreshBuffer * INDEXED_BUFFER_SIZE s) fillValue (INDEXED_BUFFER_SIZE s) }

/-- Lines 163-170, `handleBufferCopy`. -/
def handleBufferCopy (s : SMLayerIndexed RGB) : SMLayerIndexed RGB :=
  if s.copyPending = false then s
  else
    { s with
      indexedBitmap := memcpy s.indexedBitmap (indexedDrawBuffer * INDEXED_BUFFER_SIZE s)
        (indexedRefreshBuffer * INDEXED_BUFFER_SIZE s) (INDEXED_BUFFER_SIZE s)
      copyPending := false }

/-- Lines 46-49, `frameRefreshCallback`. -/
def frameRefreshCallback (s : SMLayerIndexed RGB) : SMLayerIndexed RGB :=
  handleBufferCopy s

/-- A layer on zeroed memory whose palette maps an index to itself; the
theorems at concrete inputs below are instances of it. -/
def sampleLayer (entryBits paletteSize width height : Nat) (rotation : rotationDegrees)
    (localWidth localHeight : Nat) : SMLayerIndexed Nat :=
  { indexedBitmap := fun _ => 0
    palette := fun i => i
    paletteSize := paletteSize
    entryBits := entryBits
    entryMask := 0xFF >>> (8 - entryBits)
    entryPack := 8 / entryBits
    matrixWidth := width
    matrixHeight := height
    localWidth := localWidth
    localHeight := localHeight
    rotation := rotation
    zeroTransparent := true
    copyPending := false }

/-- The byte offset of the entry of buffer cell `(x, y)` in the refresh buffer
(lines 85, 87, 201 and 203). -/
def entryOffset (s : SMLayerIndexed RGB) (x y : Nat) : Nat :=
  if s.entryBits = 8 then
    (indexedRefreshBuffer * INDEXED_BUFFER_SIZE s) + (y * INDEXED_BUFFER_ROW_SIZE s) + x
  else
    (indexedRefreshBuffer * INDEXED_BUFFER_SIZE s) + (y * INDEXED_BUFFER_ROW_SIZE s)
      + (x * s.entryBits / 8)

/-- The value `drawPixel` stores reads back as the index, for each packed width,
each shift and each old byte. -/
def readsBack (entryMask shift index old : Nat) : Bool :=
  (packedWrite old entryMask index shift >>> shift) &&& entryMask == index

/-- The value `drawPixel` stores leaves the entry at another shift of the same
byte as it was, for one packed width, two shifts, an index and an old byte. -/
def keepsOther (entryMask shift other index old : Nat) : Bool :=
  (packedWrite old entryMask index shift >>> other) &&& entryMask
    == (old >>> other) &&& entryMask

/-! ## The refresh path, the bitmap reader and the swap handshake -/

/-- Lines 106-112: the loop of `fillRefreshRow(uint16_t, rgb48 [])`, with `n`
iterations left, the next column being `i`.  `rgb48_of` is the conversion the
assignment `refreshRow[i] = currentPixel` applies (the colour types are not part
of this file of the repository). -/
def fillRefreshRow_rgb48_loop {OUT : Type} (s : SMLayerIndexed RGB) (rgb48_of : RGB → OUT)
    (hardwareY : Nat) : Nat → Nat → (Nat → OUT) → RGB → (Nat → OUT)
  | 0, _, refreshRow, _ => refreshRow
  | n + 1, i, refreshRow, currentPixel =>
    let r := getPixel s (toUInt16 i) hardwareY currentPixel
    if r.1 = false ∧ s.zeroTransparent = true then
      fillRefreshRow_rgb48_loop s rgb48_of hardwareY n (i + 1) refreshRow r.2
    else
      fillRefreshRow_rgb48_loop s rgb48_of hardwareY n (i + 1)
        (fun j => if j = i then rgb48_of r.2 else refreshRow j) r.2

/-- Lines 101-113, `fillRefreshRow(uint16_t hardwareY, rgb48 refreshRow[])`: the
row after the call.  `currentPixel` is the value the local variable of that name
has when the loop starts. -/
def fillRefreshRow_rgb48 {OUT : Type} (s : SMLayerIndexed RGB) (rgb48_of : RGB → OUT)
    (hardwareY : Nat) (refreshRow : Nat → OUT) (currentPixel : RGB) : Nat → OUT :=
  fillRefreshRow_rgb48_loop s rgb48_of hardwareY s.matrixWidth 0 refreshRow currentPixel

/-- Lines 120-126: the loop of `fillRefreshRow(uint16_t, rgb24 [])`. -/
def fillRefreshRow_rgb24_loop {OUT : Type} (s : SMLayerIndexed RGB) (rgb24_of : RGB → OUT)
    (hardwareY : Nat) : Nat → Nat → (Nat → OUT) → RGB → (Nat → OUT)
  | 0, _, refreshRow, _ => refreshRow
  | n + 1, i, refreshRow, currentPixel =>
    let r := getPixel s (toUInt16 i) hardwareY currentPixel
    if r.1 = false ∧ s.zeroTransparent = true then
      fillRefreshRow_rgb24_loop s rgb24_of hardwareY n (i + 1) refreshRow r.2
    else
      fillRefreshRow_rgb24_loop s rgb24_of hardwareY n (i + 1)
        (fun j => if j = i then rgb24_of r.2 else refreshRow j) r.2

/-- Lines 115-127, `fillRefreshRow(uint16_t hardwareY, rgb24 refreshRow[])`. -/
def fillRefreshRow_rgb24 {OUT : Type} (s : SMLayerIndexed RGB) (rgb24_of : RGB → OUT)
    (hardwareY : Nat) (refreshRow : Nat → OUT) (currentPixel : RGB) : Nat → OUT :=
  fillRefreshRow_rgb24_loop s rgb24_of hardwareY s.matrixWidth 0 refreshRow currentPixel

set_option linter.unusedVariables false in
/-- Lines 268-274, `getBitmapPixelAtXY`; all five parameters are `uint8_t` values
or a byte array, `cell` is an `int`, and the returned `bool` is whether
`mask & bitmap[cell]` is non-zero. -/
def getBitmapPixelAtXY (x y width height : Nat) (bitmap : Nat → Nat) : Bool :=
  let cell := (y * ((width / 8) + 1)) + (x / 8)
  let mask := toUInt8 ((0x80 >>> (x % 8) : Nat) : Int)
  decide (mask &&& bitmap cell ≠ 0)

/-- The program points of `swapBuffers` (lines 155-161): the first busy-wait,
the assignment, the second busy-wait, and the return. -/
inductive SwapPoint
  | waitIdle
  | setPending
  | waitServiced
  | returned
  deriving DecidableEq, Repr

open SwapPoint

/-- One step of `swapBuffers(copy)` from a program point: one test of a loop
condition, or the assignment `copyPending = true`. -/
def swapBuffersStep (copy : Bool) (pc : SwapPoint) (s : SMLayerIndexed RGB) :
    SwapPoint × SMLayerIndexed RGB :=
  match pc with
  | waitIdle => if s.copyPending = true then (waitIdle, s) else (setPending, s)
  | setPending => (waitServiced, { s with copyPending := true })
  | waitServiced =>
      if copy = true ∧ s.copyPending = true then (waitServiced, s) else (returned, s)
  | returned => (returned, s)

/-- Lines 154-161, `swapBuffers`, run on its own (no refresh tick in between):
the state it returns, or `none` when it has not returned within `fuel` steps. -/
def swapBuffersFrom (copy : Bool) : Nat → SwapPoint → SMLayerIndexed RGB →
    Option (SMLayerIndexed RGB)
  | 0, _, _ => none
  | fuel + 1, pc, s =>
    if pc = returned then some s
    else swapBuffersFrom copy fuel (swapBuffersStep copy pc s).1 (swapBuffersStep copy pc s).2

/-- Lines 154-161, `swapBuffers`, from its first statement. -/
def swapBuffers (fuel : Nat) (copy : Bool) (s : SMLayerIndexed RGB) :
    Option (SMLayerIndexed RGB) :=
  swapBuffersFrom copy fuel waitIdle s

/-- What can happen next when a producer runs `swapBuffers` and a consumer runs
the refresh callback: the producer enters `swapBuffers(copy)`, the producer takes
one step of it, or the consumer runs `frameRefreshCallback` (as a whole, it being
the refresh interrupt). -/
inductive SwapEvent
  | call (copy : Bool)
  | producer
  | consumer
  deriving DecidableEq, Repr

/-- The layer together with where the producer is in `swapBuffers` (`returned`
when it is outside a call), the argument of its call, and two counters kept for
the statements only: the assignments `copyPending = true` made so far and the
bulk copies made so far. -/
structure SwapSystem (RGB : Type) where
  layer : SMLayerIndexed RGB
  pc : SwapPoint
  copy : Bool
  accepted : Nat
  copied : Nat

/-- The effect of one event. -/
def SwapSystem.step (c : SwapSystem RGB) (e : SwapEvent) : SwapSystem RGB :=
  match e with
  | SwapEvent.call copy =>
      if c.pc = returned then { c with pc := waitIdle, copy := copy } else c
  | SwapEvent.producer =>
      { c with
        pc := (swapBuffersStep c.copy c.pc c.layer).1
        layer := (swapBuffersStep c.copy c.pc c.layer).2
        accepted := if c.pc = setPending then c.accepted + 1 else c.accepted }
  | SwapEvent.consumer =>
      { c with
        layer := frameRefreshCallback c.layer
        copied := if c.layer.copyPending = true then c.copied + 1 else c.copied }

/-- The effect of a sequence of events, first to last. -/
def SwapSystem.run (c : SwapSystem RGB) (events : List SwapEvent) : SwapSystem RGB :=
  events.foldl SwapSystem.step c

/-- The system before any call: the producer outside `swapBuffers`, nothing
requested and nothing copied. -/
def SwapSystem.start (s : SMLayerIndexed RGB) : SwapSystem RGB :=
  { layer := s, pc := returned, copy := false, accepted := 0, copied := 0 }

/-- The relation between the counters, the flag and the producer's program
point that every event keeps: the requests accepted are the copies made plus the
one outstanding request when the flag is set; the producer is about to set the
flag only while it is clear; and a `swapBuffers(true)` that has returned sees the
flag clear. -/
def SwapSystem.Handshake (c : SwapSystem RGB) : Prop :=
  c.accepted = c.copied + (if c.layer.copyPending = true then 1 else 0)
  ∧ (c.pc = setPending → c.layer.copyPending = false)
  ∧ (c.pc = returned → c.copy = true → c.layer.copyPending = false)

/-! ## Text drawing -/

/-- Conversion of an `int` to `int16_t`. -/
def toInt16 (z : Int) : Int := (z + 32768) % 65536 - 32768

/-- The two members of `bitmap_font` that `drawChar` reads. -/
structure bitmap_font where
  Width : Nat
  Height : Nat

/-- Lines 234-238 of `drawChar`: the loop over the columns of one glyph row, with
`n` columns left, the next being `j`.  The argument of `drawPixel` is converted
to its parameter type `int16_t`. -/
def drawCharColumns (x i : Int) (index tempBitmask : Nat) :
    Nat → Nat → Nat → SMLayerIndexed RGB → SMLayerIndexed RGB
  | 0, _, _, s => s
  | n + 1, j, shiftMask, s =>
    drawCharColumns x i index tempBitmask n (j + 1) (shiftMask >>> 1)
      (if tempBitmask &&& shiftMask ≠ 0 then
        drawPixel s (toInt16 (x + j)) (toInt16 i) index
       else s)

/-- Lines 227-239 of `drawChar`: the loop over the rows, with `n` rows left, the
next being `i`.  `getBitmapFontRowAtXY` belongs to the font provider and is a
parameter. -/
def drawCharRows (getBitmapFontRowAtXY : Nat → Int → bitmap_font → Int)
    (layerFont : bitmap_font) (x y : Int) (index character : Nat) :
    Nat → Int → SMLayerIndexed RGB → SMLayerIndexed RGB
  | 0, _, s => s
  | n + 1, i, s =>
    if i < 0 then
      drawCharRows getBitmapFontRowAtXY layerFont x y index character n (i + 1) s
    else if i ≥ (s.localHeight : Int) then s
    else
      drawCharRows getBitmapFontRowAtXY layerFont x y index character n (i + 1)
        (drawCharColumns x i index
          (toUInt8 (getBitmapFontRowAtXY character (i - y) layerFont))
          layerFont.Width 0 0x80 s)

/-- Lines 217-240, `drawChar`.  `layerFont` and `scrollFont` are the members of
those names. -/
def drawChar (getBitmapFontRowAtXY : Nat → Int → bitmap_font → Int)
    (layerFont scrollFont : bitmap_font) (s : SMLayerIndexed RGB) (x y : Int)
    (index character : Nat) : SMLayerIndexed RGB :=
  if x + (scrollFont.Width : Int) < 0 ∨ x ≥ (s.localWidth : Int) then s
  else
    drawCharRows getBitmapFontRowAtXY layerFont x y index character
      layerFont.Height y s

/-- The pixels of one glyph row as the description of `drawChar` lists them:
`drawPixel(x + j, y + r, index)` for each column `j` from `first` on, `n` of
them, whose bit `0x80 >> j` is set in the row. -/
def glyphRowPixels (x y : Int) (index rowBits : Nat) (r : Nat) :
    Nat → Nat → SMLayerIndexed RGB → SMLayerIndexed RGB
  | 0, _, s => s
  | n + 1, j, s =>
    glyphRowPixels x y index rowBits r n (j + 1)
      (if rowBits &&& (0x80 >>> j) ≠ 0 then
        drawPixel s (toInt16 (x + j)) (toInt16 (y + r)) index
       else s)

/-- The pixels of a glyph as the description of `drawChar` lists them: every row
`r` from `first` on, `n` of them, and in each row every column `0 .. Width - 1`. -/
def glyphPixels (getBitmapFontRowAtXY : Nat → Int → bitmap_font → Int)
    (layerFont : bitmap_font) (x y : Int) (index character : Nat) :
    Nat → Nat → SMLayerIndexed RGB → SMLayerIndexed RGB
  | 0, _, s => s
  | n + 1, r, s =>
    glyphPixels getBitmapFontRowAtXY layerFont x y index character n (r + 1)
      (glyphRowPixels x y index
        (toUInt8 (getBitmapFontRowAtXY character r layerFont)) r layerFont.Width 0 s)

/-! ## Frame facts: what the operations leave alone -/

theorem drawPixel_frame (s : SMLayerIndexed RGB) (x y : Int) (index : Nat) :
    ∃ m, drawPixel s x y index = { s with indexedBitmap := m } := by
  unfold drawPixel
  split
  · exact ⟨s.indexedBitmap, rfl⟩
  · simp only []
    split
    · exact ⟨s.indexedBitmap, rfl⟩
    · split
      · exact ⟨_, rfl⟩
      · exact ⟨_, rfl⟩

theorem drawPixel_fields (s : SMLayerIndexed RGB) (x y : Int) (index : Nat) :
    (drawPixel s x y index).palette = s.palette
    ∧ (drawPixel s x y index).paletteSize = s.paletteSize
    ∧ (drawPixel s x y index).entryBits = s.entryBits
    ∧ (drawPixel s x y index).entryMask = s.entryMask
    ∧ (drawPixel s x y index).entryPack = s.entryPack
    ∧ (drawPixel s x y index).matrixWidth = s.matrixWidth
    ∧ (drawPixel s x y index).matrixHeight = s.matrixHeight
    ∧ (drawPixel s x y index).localWidth = s.localWidth
    ∧ (drawPixel s x y index).localHeight = s.localHeight
    ∧ (drawPixel s x y index).rotation = s.rotation
    ∧ (drawPixel s x y index).zeroTransparent = s.zeroTransparent
    ∧ (drawPixel s x y index).copyPending = s.copyPending := by
  obtain ⟨m, hm⟩ := drawPixel_frame s x y index
  rw [hm]
  simp

/-! ## Arithmetic of the packed entries -/

theorem entryShift_eq (s : SMLayerIndexed RGB) (hc : Constructed s) (x : Nat) :
    entryShift s x = (s.entryPack - 1 - x % s.entryPack) * s.entryBits := by
  have hp := hc.pack
  unfold entryShift toUInt8
  rcases hc.bits with hb | hb | hb | hb <;> rw [hb] at hp <;> rw [hp, hb] <;>
    simp only [] <;> norm_num <;> omega

set_option maxRecDepth 100000 in
theorem readsBack_1 : ∀ k < 8, ∀ i < 2, ∀ old < 256, readsBack 1 k i old = true := by
  decide

set_option maxRecDepth 100000 in
theorem readsBack_2 : ∀ k < 4, ∀ i < 4, ∀ old < 256, readsBack 3 (k * 2) i old = true := by
  decide

set_option maxRecDepth 100000 in
theorem readsBack_4 : ∀ k < 2, ∀ i < 16, ∀ old < 256, readsBack 15 (k * 4) i old = true := by
  decide

theorem and_low_byte (old c : Nat) (hc : c < 256) : old &&& c = (old % 256) &&& c := by
  apply Nat.eq_of_testBit_eq
  intro j
  have h256 : (256 : Nat) = 2 ^ 8 := by norm_num
  rw [Nat.testBit_and, Nat.testBit_and, h256, Nat.testBit_mod_two_pow]
  by_cases hj : j < 8
  · simp [hj]
  · have hcj : c.testBit j = false := by
      apply Nat.testBit_lt_two_pow
      calc c < 2 ^ 8 := by omega
        _ ≤ 2 ^ j := Nat.pow_le_pow_right (by norm_num) (by omega)
    simp [hcj]

theorem complement8_lt (v : Nat) : complement8 v < 256 := by
  unfold complement8
  have h : (255 : Nat) ^^^ (v % 256) < 2 ^ 8 :=
    Nat.xor_lt_two_pow (by norm_num) (by have := Nat.mod_lt v (show 0 < 256 by norm_num); omega)
  simpa using h

theorem packedWrite_low_byte (old entryMask index shift : Nat) :
    packedWrite old entryMask index shift = packedWrite (old % 256) entryMask index shift := by
  unfold packedWrite
  rw [and_low_byte old _ (complement8_lt _)]

/-! ## `drawPixel` at rotation 0 -/

theorem readEntry_with (s : SMLayerIndexed RGB) (m : Nat → Nat) (x y : Nat) :
    readEntry { s with indexedBitmap := m } x y
      = if s.entryBits = 8 then m (entryOffset s x y)
        else (m (entryOffset s x y) >>> entryShift s x) &&& s.entryMask := by
  unfold readEntry entryOffset
  split <;> rfl

theorem drawPixel_rotation0 (s : SMLayerIndexed RGB) (hrot : s.rotation = rotation0)
    (x y : Nat) (hx : x < s.localWidth) (hy : y < s.localHeight) (index : Nat)
    (hi : index ≤ s.paletteSize) :
    drawPixel s x y index
      = { s with
          indexedBitmap := store s.indexedBitmap (entryOffset s x y)
            (if s.entryBits = 8 then index
             else packedWrite (s.indexedBitmap (entryOffset s x y)) s.entryMask index
               (entryShift s x)) } := by
  have h1 : ¬ index > s.paletteSize := by omega
  have h2 : ¬ ((x : Int) < 0 ∨ (y : Int) < 0 ∨ (x : Int) ≥ (s.localWidth : Int)
      ∨ (y : Int) ≥ (s.localHeight : Int)) := by omega
  unfold drawPixel entryOffset
  simp only [toHW, hrot, if_true, h1, h2, if_false, Int.toNat_ofNat]
  split <;> rfl

theorem packedWrite_mod (old entryMask index shift : Nat) :
    packedWrite old entryMask index shift % 256 = packedWrite old entryMask index shift := by
  unfold packedWrite
  exact Nat.mod_mod _ _

theorem readsBack_iff (entryMask shift index old : Nat) :
    readsBack entryMask shift index old = true
      ↔ (packedWrite old entryMask index shift >>> shift) &&& entryMask = index := by
  unfold readsBack
  exact beq_iff_eq

/-- Reading the entry back from the byte `drawPixel` has stored gives the index,
for the three packed widths. -/
theorem packed_read_same (bits : Nat) (hb : bits = 1 ∨ bits = 2 ∨ bits = 4)
    (x old index : Nat) (hi : index ≤ 0xFF >>> (8 - bits)) :
    ((packedWrite old (0xFF >>> (8 - bits)) index ((8 / bits - 1 - x % (8 / bits)) * bits)
        % 256) >>> ((8 / bits - 1 - x % (8 / bits)) * bits)) &&& (0xFF >>> (8 - bits))
      = index := by
  rw [packedWrite_mod, packedWrite_low_byte]
  have hold : old % 256 < 256 := Nat.mod_lt _ (by norm_num)
  rcases hb with hb | hb | hb <;> subst hb <;> norm_num at hi ⊢
  · exact (readsBack_iff _ _ _ _).1
      (by simpa using readsBack_1 (7 - x % 8) (by omega) index (by omega) (old % 256) hold)
  · exact (readsBack_iff _ _ _ _).1
      (readsBack_2 (3 - x % 4) (by omega) index (by omega) (old % 256) hold)
  · exact (readsBack_iff _ _ _ _).1
      (readsBack_4 (1 - x % 2) (by omega) index (by omega) (old % 256) hold)

theorem readEntry_drawPixel_same (s : SMLayerIndexed RGB) (hc : Constructed s)
    (hrot : s.rotation = rotation0) (x y : Nat) (hx : x < s.localWidth)
    (hy : y < s.localHeight) (index : Nat) (hi : index ≤ s.paletteSize)
    (hm : index ≤ s.entryMask) :
    readEntry (drawPixel s x y index) x y = index := by
  rw [drawPixel_rotation0 s hrot x y hx hy index hi, readEntry_with]
  have hmask := hc.mask
  have hpack := hc.pack
  have hsh := entryShift_eq s hc x
  by_cases h8 : s.entryBits = 8
  · rw [h8] at hmask
    norm_num at hmask
    simp only [h8, if_true, store]
    exact Nat.mod_eq_of_lt (by omega)
  · have hb : s.entryBits = 1 ∨ s.entryBits = 2 ∨ s.entryBits = 4 := by
      rcases hc.bits with h | h | h | h
      · exact Or.inl h
      · exact Or.inr (Or.inl h)
      · exact Or.inr (Or.inr h)
      · exact absurd h h8
    simp only [h8, if_false, store, if_true]
    rw [hsh, hpack, hmask]
    rw [hmask] at hm
    exact packed_read_same s.entryBits hb x _ index hm
theorem index_le_entryMask (s : SMLayerIndexed RGB) (hc : Constructed s)
    (hpal : s.paletteSize ≤ 2 ^ s.entryBits) (i : Nat) (hi : i < s.paletteSize) :
    i ≤ s.entryMask := by
  have hmask := hc.mask
  rcases hc.bits with hb | hb | hb | hb <;> rw [hb] at hmask hpal <;>
    norm_num at hmask hpal <;> omega

/-- C1: at rotation 0, for each supported entry width, each in-bounds `(x, y)` and
each palette index `i < paletteSize` (the palette having at most `2 ^ entryBits`
colours), `getPixel` at `(x, y)` after `drawPixel(x, y, i)` returns true with the
output colour `palette[i]`, whenever `i` is not 0 or index 0 is not transparent. -/
theorem drawPixel_getPixel_roundtrip (s : SMLayerIndexed RGB) (hc : Constructed s)
    (hpal : s.paletteSize ≤ 2 ^ s.entryBits) (hrot : s.rotation = rotation0)
    (x y : Nat) (hx : x < s.localWidth) (hy : y < s.localHeight)
    (i : Nat) (hi : i < s.paletteSize) (hvis : i ≠ 0 ∨ s.zeroTransparent = false)
    (xyPixel : RGB) :
    getPixel (drawPixel s x y i) x y xyPixel = (true, s.palette i) := by
  have hread := readEntry_drawPixel_same s hc hrot x y hx hy i (Nat.le_of_lt hi)
    (index_le_entryMask s hc hpal i hi)
  obtain ⟨hp, -, -, -, -, hmw, hmh, hlw, hlh, hr, hz, -⟩ := drawPixel_fields s x y i
  unfold getPixel
  rw [hr, hmw, hmh, hlw, hlh, hz, hp, hrot]
  have hb : ¬ (x ≥ s.localWidth ∨ y ≥ s.localHeight) := by omega
  simp only [toLocal, hb, if_false, hread, hvis, if_true]

/-- C1 at a concrete input: a 4-bit layer of 16 by 2 pixels, pixel `(9, 1)`,
index 11. -/
theorem drawPixel_getPixel_roundtrip_witness :
    getPixel (drawPixel (sampleLayer 4 16 16 2 rotation0 16 2) 9 1 11) 9 1 77
      = (true, 11) :=
  drawPixel_getPixel_roundtrip (sampleLayer 4 16 16 2 rotation0 16 2)
    ⟨by decide, by decide, by decide⟩ (by decide) rfl 9 1 (by decide) (by decide) 11
    (by decide) (Or.inl (by decide)) 77

/-! ## The two rotation mappings -/

theorem rotation_maps_roundtrip (rotation : rotationDegrees) (hr : rotation ≠ unrecognised)
    (matrixWidth matrixHeight : Nat) (hw : matrixWidth < 65536) (hh : matrixHeight < 65536) :
    (∀ hx hy : Nat, hx < matrixWidth → hy < matrixHeight →
      ∃ lx ly : Nat, toLocal rotation matrixWidth matrixHeight hx hy = some (lx, ly)
        ∧ lx < rotatedWidth rotation matrixWidth matrixHeight
        ∧ ly < rotatedHeight rotation matrixWidth matrixHeight
        ∧ toHW rotation matrixWidth matrixHeight lx ly = ((hx : Int), (hy : Int)))
    ∧ (∀ x y : Nat, x < rotatedWidth rotation matrixWidth matrixHeight →
        y < rotatedHeight rotation matrixWidth matrixHeight →
      ∃ hx hy : Nat, toHW rotation matrixWidth matrixHeight x y = ((hx : Int), (hy : Int))
        ∧ hx < matrixWidth ∧ hy < matrixHeight
        ∧ toLocal rotation matrixWidth matrixHeight hx hy = some (x, y)) := by
  constructor
  · intro hx hy hxl hyl
    cases rotation
    · exact ⟨hx, hy, rfl, hxl, hyl, rfl⟩
    · refine ⟨hy, toUInt16 (((matrixWidth : Int) - 1) - hx), rfl, hyl, ?_, ?_⟩
      · simp only [rotatedHeight, toUInt16]; omega
      · simp only [toHW, toUInt16]
        simp only [reduceCtorEq, if_false, if_true, Prod.mk.injEq, and_true, true_and]
        omega
    · refine ⟨toUInt16 (((matrixWidth : Int) - 1) - hx),
        toUInt16 (((matrixHeight : Int) - 1) - hy), rfl, ?_, ?_, ?_⟩
      · simp only [rotatedWidth, toUInt16]; omega
      · simp only [rotatedHeight, toUInt16]; omega
      · simp only [toHW, toUInt16]
        simp only [reduceCtorEq, if_false, if_true, Prod.mk.injEq, and_true, true_and]
        omega
    · refine ⟨toUInt16 (((matrixHeight : Int) - 1) - hy), hx, rfl, ?_, hxl, ?_⟩
      · simp only [rotatedWidth, toUInt16]; omega
      · simp only [toHW, toUInt16]
        simp only [reduceCtorEq, if_false, Prod.mk.injEq, and_true, true_and]
        omega
    · exact absurd rfl hr
  · intro x y hxl hyl
    cases rotation
    · exact ⟨x, y, rfl, hxl, hyl, rfl⟩
    · simp only [rotatedWidth, rotatedHeight] at hxl hyl
      refine ⟨matrixWidth - 1 - y, x, ?_, by omega, hxl, ?_⟩
      · simp only [toHW, reduceCtorEq, if_false, if_true, Prod.mk.injEq, and_true, true_and]
        omega
      · simp only [toLocal, toUInt16, Option.some.injEq, Prod.mk.injEq, and_true, true_and]
        omega
    · simp only [rotatedWidth, rotatedHeight] at hxl hyl
      refine ⟨matrixWidth - 1 - x, matrixHeight - 1 - y, ?_, by omega, by omega, ?_⟩
      · simp only [toHW, reduceCtorEq, if_false, if_true, Prod.mk.injEq, and_true, true_and]
        omega
      · simp only [toLocal, toUInt16, Option.some.injEq, Prod.mk.injEq, and_true, true_and]
        omega
    · simp only [rotatedWidth, rotatedHeight] at hxl hyl
      refine ⟨y, matrixHeight - 1 - x, ?_, hyl, by omega, ?_⟩
      · simp only [toHW, reduceCtorEq, if_false, Prod.mk.injEq, and_true, true_and]
        omega
      · simp only [toLocal, toUInt16, Option.some.injEq, Prod.mk.injEq, and_true, true_and]
        omega
    · exact absurd rfl hr

/-- C2: for each of the four rotations and each matrix size (dimensions being
`uint16_t` values), the hardware-to-local switch of `getPixel` and the
local-to-hardware chain of `drawPixel` are mutual inverses: a hardware coordinate
inside the matrix is mapped to a local coordinate inside the rotated dimensions
from which `drawPixel` computes the hardware coordinate again, and an in-bounds
local coordinate is mapped to a hardware coordinate inside the matrix from which
`getPixel` computes the local coordinate again. -/
theorem toHW_toLocal_inverse (rotation : rotationDegrees) (hr : rotation ≠ unrecognised)
    (matrixWidth matrixHeight : Nat) (hw : matrixWidth < 65536) (hh : matrixHeight < 65536) :
    (∀ hx hy : Nat, hx < matrixWidth → hy < matrixHeight →
      ∃ lx ly : Nat, toLocal rotation matrixWidth matrixHeight hx hy = some (lx, ly)
        ∧ lx < rotatedWidth rotation matrixWidth matrixHeight
        ∧ ly < rotatedHeight rotation matrixWidth matrixHeight
        ∧ toHW rotation matrixWidth matrixHeight lx ly = ((hx : Int), (hy : Int)))
    ∧ (∀ x y : Nat, x < rotatedWidth rotation matrixWidth matrixHeight →
        y < rotatedHeight rotation matrixWidth matrixHeight →
      ∃ hx hy : Nat, toHW rotation matrixWidth matrixHeight x y = ((hx : Int), (hy : Int))
        ∧ hx < matrixWidth ∧ hy < matrixHeight
        ∧ toLocal rotation matrixWidth matrixHeight hx hy = some (x, y)) :=
  rotation_maps_roundtrip rotation hr matrixWidth matrixHeight hw hh

/-- C2 at a concrete input: rotation 90 of a 5 by 3 matrix (odd dimensions). -/
theorem toHW_toLocal_inverse_witness :
    (∀ hx hy : Nat, hx < 5 → hy < 3 →
      ∃ lx ly : Nat, toLocal rotation90 5 3 hx hy = some (lx, ly)
        ∧ lx < rotatedWidth rotation90 5 3 ∧ ly < rotatedHeight rotation90 5 3
        ∧ toHW rotation90 5 3 lx ly = ((hx : Int), (hy : Int)))
    ∧ (∀ x y : Nat, x < rotatedWidth rotation90 5 3 → y < rotatedHeight rotation90 5 3 →
      ∃ hx hy : Nat, toHW rotation90 5 3 x y = ((hx : Int), (hy : Int))
        ∧ hx < 5 ∧ hy < 3 ∧ toLocal rotation90 5 3 hx hy = some (x, y)) :=
  toHW_toLocal_inverse rotation90 (by decide) 5 3 (by decide) (by decide)

/-! ## The packed write, byte by byte -/

theorem and_complement8_eq_ldiff (old v : Nat) (ho : old < 256) (hv : v < 256) :
    old &&& complement8 v = Nat.ldiff old v := by
  apply Nat.eq_of_testBit_eq
  intro j
  have h255 : (255 : Nat) = 2 ^ 8 - 1 := by norm_num
  unfold complement8
  rw [Nat.mod_eq_of_lt hv, Nat.testBit_and, Nat.testBit_xor, Nat.testBit_ldiff, h255,
    Nat.testBit_two_pow_sub_one]
  by_cases hj : j < 8
  · simp [hj]
  · have hoj : old.testBit j = false := by
      apply Nat.testBit_lt_two_pow
      calc old < 2 ^ 8 := by omega
        _ ≤ 2 ^ j := Nat.pow_le_pow_right (by norm_num) (by omega)
    simp [hoj]

theorem shifted_lt_256 (bits : Nat) (hb : bits = 1 ∨ bits = 2 ∨ bits = 4) (x v : Nat)
    (hv : v ≤ 0xFF >>> (8 - bits)) :
    v <<< ((8 / bits - 1 - x % (8 / bits)) * bits) < 256 := by
  rcases hb with hb | hb | hb <;> subst hb
  · have hv1 : v ≤ 1 := hv
    have hr : x % 8 < 8 := Nat.mod_lt _ (by norm_num)
    norm_num
    generalize x % 8 = r at hr
    interval_cases r <;> interval_cases v <;> decide
  · have hv1 : v ≤ 3 := hv
    have hr : x % 4 < 4 := Nat.mod_lt _ (by norm_num)
    norm_num
    generalize x % 4 = r at hr
    interval_cases r <;> interval_cases v <;> decide
  · have hv1 : v ≤ 15 := hv
    have hr : x % 2 < 2 := Nat.mod_lt _ (by norm_num)
    norm_num
    generalize x % 2 = r at hr
    interval_cases r <;> interval_cases v <;> decide

theorem packedWrite_eq_ldiff (old entryMask index shift : Nat) (ho : old < 256)
    (hm : entryMask <<< shift < 256) (hi : index <<< shift < 256) :
    packedWrite old entryMask index shift
      = Nat.ldiff old (entryMask <<< shift) ||| (index <<< shift) := by
  unfold packedWrite
  have h1 : old &&& complement8 (entryMask <<< shift) < 256 :=
    lt_of_le_of_lt Nat.and_le_left ho
  rw [Nat.mod_eq_of_lt h1]
  have h2 : (old &&& complement8 (entryMask <<< shift)) ||| (index <<< shift) < 2 ^ 8 :=
    Nat.or_lt_two_pow (by simpa using h1) (by simpa using hi)
  rw [Nat.mod_eq_of_lt (by simpa using h2), and_complement8_eq_ldiff old _ ho hm]

/-- C3: for a packed entry width (1, 2 or 4 bits), rotation 0, an in-bounds
`(x, y)` and an index that `drawPixel` accepts and that fits the entry mask,
`drawPixel(x, y, index)` writes one byte only, the one at
`refreshBase + y * rowSize + x * entryBits / 8`, whose new value is
`(old AND NOT (entryMask << shift)) OR (index << shift)` with
`shift = (entryPack - 1 - x mod entryPack) * entryBits`; every other byte keeps its
value.  With one bit per entry the pixels `x = 0..7` share a byte and `x` sits in
bit `7 - x`; with four bits the pixels `x = 0, 1` share a byte and `x = 0` is the
high nibble. -/
theorem drawPixel_packed_byte (s : SMLayerIndexed RGB) (hc : Constructed s)
    (hb : s.entryBits = 1 ∨ s.entryBits = 2 ∨ s.entryBits = 4)
    (hrot : s.rotation = rotation0) (x y : Nat) (hx : x < s.localWidth)
    (hy : y < s.localHeight) (index : Nat) (hacc : index ≤ s.paletteSize)
    (hm : index ≤ s.entryMask)
    (hbyte : s.indexedBitmap (INDEXED_BUFFER_SIZE s + y * INDEXED_BUFFER_ROW_SIZE s
      + x * s.entryBits / 8) < 256) :
    (drawPixel s x y index).indexedBitmap
        (INDEXED_BUFFER_SIZE s + y * INDEXED_BUFFER_ROW_SIZE s + x * s.entryBits / 8)
      = Nat.ldiff (s.indexedBitmap (INDEXED_BUFFER_SIZE s + y * INDEXED_BUFFER_ROW_SIZE s
            + x * s.entryBits / 8))
          (s.entryMask <<< ((s.entryPack - 1 - x % s.entryPack) * s.entryBits))
        ||| (index <<< ((s.entryPack - 1 - x % s.entryPack) * s.entryBits))
    ∧ (∀ a : Nat,
        a ≠ INDEXED_BUFFER_SIZE s + y * INDEXED_BUFFER_ROW_SIZE s + x * s.entryBits / 8 →
        (drawPixel s x y index).indexedBitmap a = s.indexedBitmap a)
    ∧ (s.entryBits = 1 → x < 8 →
        x * s.entryBits / 8 = 0 ∧ (s.entryPack - 1 - x % s.entryPack) * s.entryBits = 7 - x)
    ∧ (s.entryBits = 4 → x < 2 →
        x * s.entryBits / 8 = 0
          ∧ (s.entryPack - 1 - x % s.entryPack) * s.entryBits = 4 * (1 - x)) := by
  have h8 : s.entryBits ≠ 8 := by omega
  have hoff : entryOffset s x y
      = INDEXED_BUFFER_SIZE s + y * INDEXED_BUFFER_ROW_SIZE s + x * s.entryBits / 8 := by
    simp [entryOffset, h8, indexedRefreshBuffer]
  have hmask := hc.mask
  have hpack := hc.pack
  have hd := drawPixel_rotation0 s hrot x y hx hy index hacc
  rw [hoff] at hd
  refine ⟨?_, ?_, ?_, ?_⟩
  · rw [hd]
    simp only [store, if_true, h8, if_false]
    rw [packedWrite_mod, entryShift_eq s hc x]
    apply packedWrite_eq_ldiff _ _ _ _ hbyte
    · rw [hpack, hmask]
      exact shifted_lt_256 s.entryBits hb x _ (le_refl _)
    · rw [hpack]
      rw [hmask] at hm
      exact shifted_lt_256 s.entryBits hb x index hm
  · intro a ha
    rw [hd]
    simp only [store, ha, if_false]
  · intro h1 hx8
    rw [hpack, h1]
    norm_num
    omega
  · intro h4 hx2
    rw [hpack, h4]
    norm_num
    omega

/-- C3 at a concrete input: a 4-bit layer of 16 by 2 pixels, pixel `(1, 1)`,
index 9. -/
theorem drawPixel_packed_byte_witness :
    (drawPixel (sampleLayer 4 16 16 2 rotation0 16 2) 1 1 9).indexedBitmap 24 = 9
    ∧ (∀ a : Nat, a ≠ 24 →
        (drawPixel (sampleLayer 4 16 16 2 rotation0 16 2) 1 1 9).indexedBitmap a = 0) := by
  have h := drawPixel_packed_byte (sampleLayer 4 16 16 2 rotation0 16 2)
    ⟨by decide, by decide, by decide⟩ (by decide) rfl 1 1 (by decide) (by decide) 9
    (by decide) (by decide) (by decide)
  refine ⟨?_, h.2.1⟩
  decide

/-! ## The buffer copy -/

/-- C5: `handleBufferCopy`, and `frameRefreshCallback` which only calls it, returns
the state it was given when no copy is pending; when one is pending it returns
the state whose draw buffer (bytes `0 .. bufferSize - 1`) holds the bytes the
refresh buffer (bytes `bufferSize .. 2 * bufferSize - 1`) had at the call, with
every other byte, the refresh buffer included, and every other member unchanged
and `copyPending` false. -/
theorem handleBufferCopy_effect (s : SMLayerIndexed RGB) :
    frameRefreshCallback s = handleBufferCopy s
    ∧ (s.copyPending = false → handleBufferCopy s = s)
    ∧ (s.copyPending = false → handleBufferCopy (handleBufferCopy s) = s)
    ∧ (s.copyPending = true →
        handleBufferCopy s
            = { s with
                indexedBitmap := fun a =>
                  if a < INDEXED_BUFFER_SIZE s then s.indexedBitmap (INDEXED_BUFFER_SIZE s + a)
                  else s.indexedBitmap a
                copyPending := false }
          ∧ (∀ a : Nat, a < INDEXED_BUFFER_SIZE s →
              (handleBufferCopy s).indexedBitmap a
                = s.indexedBitmap (INDEXED_BUFFER_SIZE s + a))
          ∧ (∀ a : Nat, INDEXED_BUFFER_SIZE s ≤ a →
              (handleBufferCopy s).indexedBitmap a = s.indexedBitmap a)
          ∧ (handleBufferCopy s).copyPending = false) := by
  have hidle : s.copyPending = false → handleBufferCopy s = s := by
    intro h
    simp [handleBufferCopy, h]
  have hcopy : s.copyPending = true →
      handleBufferCopy s
        = { s with
            indexedBitmap := fun a =>
              if a < INDEXED_BUFFER_SIZE s then s.indexedBitmap (INDEXED_BUFFER_SIZE s + a)
              else s.indexedBitmap a
            copyPending := false } := by
    intro h
    have hm : memcpy s.indexedBitmap (indexedDrawBuffer * INDEXED_BUFFER_SIZE s)
        (indexedRefreshBuffer * INDEXED_BUFFER_SIZE s) (INDEXED_BUFFER_SIZE s)
        = fun a => if a < INDEXED_BUFFER_SIZE s then
            s.indexedBitmap (INDEXED_BUFFER_SIZE s + a) else s.indexedBitmap a := by
      funext a
      simp [memcpy, indexedDrawBuffer, indexedRefreshBuffer]
    unfold handleBufferCopy
    rw [if_neg (by simp [h]), hm]
  refine ⟨rfl, hidle, ?_, ?_⟩
  · intro h
    rw [hidle h, hidle h]
  · intro h
    refine ⟨hcopy h, ?_, ?_, ?_⟩
    · intro a ha
      rw [hcopy h]
      simp [ha]
    · intro a ha
      rw [hcopy h]
      simp [Nat.not_lt.mpr ha]
    · rw [hcopy h]

/-! ## Drawing leaves the draw buffer alone -/

theorem drawPixel_below_refresh (s : SMLayerIndexed RGB) (x y : Int) (index : Nat)
    (a : Nat) (ha : a < indexedRefreshBuffer * INDEXED_BUFFER_SIZE s) :
    (drawPixel s x y index).indexedBitmap a = s.indexedBitmap a := by
  unfold drawPixel
  split
  · rfl
  · simp only []
    split
    · rfl
    · split
      · simp only [store]
        rw [if_neg (by omega)]
      · simp only [store]
        rw [if_neg (by omega)]

theorem fillValueLoop_isSome (entryBits index : Nat) (hb : 0 < entryBits) :
    ∀ fuel shift fillValue : Nat, entryBits ≤ shift → 8 ≤ shift + fuel →
      (fillValueLoop entryBits index (fuel + 1) shift fillValue).isSome = true := by
  intro fuel
  induction fuel with
  | zero =>
    intro shift fillValue _ h8
    have hs : ¬ shift < 8 := by omega
    simp [fillValueLoop, hs]
  | succ n ih =>
    intro shift fillValue hle h8
    by_cases hs : shift < 8
    · have hwrap : (shift + entryBits) % 256 = shift + entryBits :=
        Nat.mod_eq_of_lt (by omega)
      rw [fillValueLoop, if_pos hs, hwrap]
      exact ih _ _ (by omega) (by omega)
    · simp [fillValueLoop, hs]

theorem fillScreen_isSome (s : SMLayerIndexed RGB) (index : Nat)
    (hb : 0 < s.entryBits) (hb8 : s.entryBits < 256) :
    ∃ fillValue : Nat,
      fillValueLoop s.entryBits index 8 (s.entryBits % 256) (index % 256) = some fillValue
      ∧ fillScreen s index
        = some { s with
            indexedBitmap := memset s.indexedBitmap
              (indexedRefreshBuffer * INDEXED_BUFFER_SIZE s) fillValue
              (INDEXED_BUFFER_SIZE s) } := by
  have h := fillValueLoop_isSome s.entryBits index hb 7 (s.entryBits % 256) (index % 256)
    (by rw [Nat.mod_eq_of_lt hb8]) (by rw [Nat.mod_eq_of_lt hb8]; omega)
  obtain ⟨v, hv⟩ := Option.isSome_iff_exists.1 h
  refine ⟨v, hv, ?_⟩
  unfold fillScreen
  rw [hv]

theorem fillScreen_frame (s s' : SMLayerIndexed RGB) (index : Nat)
    (h : fillScreen s index = some s') :
    ∃ fillValue : Nat,
      s' = { s with
          indexedBitmap := memset s.indexedBitmap
            (indexedRefreshBuffer * INDEXED_BUFFER_SIZE s) fillValue
            (INDEXED_BUFFER_SIZE s) } := by
  unfold fillScreen at h
  split at h
  · exact absurd h (by simp)
  · rename_i v _
    exact ⟨v, (Option.some.inj h).symm⟩

/-- C6: for every state and every argument, `drawPixel` returns a state with
the same draw buffer (bytes `0 .. bufferSize - 1`), palette and `copyPending`
flag; `fillScreen` returns, for an entry width of 1 to 255 bits, and the state it
returns has the same draw buffer, palette and `copyPending` flag. -/
theorem drawing_keeps_draw_buffer (s : SMLayerIndexed RGB) (x y : Int) (index : Nat) :
    ((∀ a : Nat, a < INDEXED_BUFFER_SIZE s →
        (drawPixel s x y index).indexedBitmap a = s.indexedBitmap a)
      ∧ (drawPixel s x y index).palette = s.palette
      ∧ (drawPixel s x y index).copyPending = s.copyPending)
    ∧ (∀ s' : SMLayerIndexed RGB, fillScreen s index = some s' →
        (∀ a : Nat, a < INDEXED_BUFFER_SIZE s → s'.indexedBitmap a = s.indexedBitmap a)
        ∧ s'.palette = s.palette ∧ s'.copyPending = s.copyPending)
    ∧ (0 < s.entryBits → s.entryBits < 256 → ∃ s', fillScreen s index = some s') := by
  refine ⟨⟨?_, (drawPixel_fields s x y index).1, (drawPixel_fields s x y index).2.2.2.2.2.2.2.2.2.2.2⟩,
    ?_, ?_⟩
  · intro a ha
    exact drawPixel_below_refresh s x y index a (by simpa [indexedRefreshBuffer] using ha)
  · intro s' h
    obtain ⟨v, hv⟩ := fillScreen_frame s s' index h
    subst hv
    refine ⟨?_, rfl, rfl⟩
    intro a ha
    simp only [memset, indexedRefreshBuffer]
    rw [if_neg (by omega)]
  · intro hb hb8
    obtain ⟨v, -, hv⟩ := fillScreen_isSome s index hb hb8
    exact ⟨_, hv⟩

/-! ## `fillScreen` on byte-aligned rows -/

theorem fillValue_reads (bits : Nat) (hb : bits = 1 ∨ bits = 2 ∨ bits = 4) (k : Nat)
    (hk : k ≤ 0xFF >>> (8 - bits)) :
    ∃ fillValue : Nat, fillValueLoop bits k 8 (bits % 256) (k % 256) = some fillValue
      ∧ fillValue < 256
      ∧ ∀ x : Nat, (fillValue >>> ((8 / bits - 1 - x % (8 / bits)) * bits))
          &&& (0xFF >>> (8 - bits)) = k := by
  rcases hb with hb | hb | hb <;> subst hb
  · have hk1 : k ≤ 1 := hk
    interval_cases k
    · refine ⟨0, by decide, by decide, ?_⟩
      intro x
      have hr : x % 8 < 8 := Nat.mod_lt _ (by norm_num)
      norm_num
    · refine ⟨255, by decide, by decide, ?_⟩
      intro x
      have hr : x % 8 < 8 := Nat.mod_lt _ (by norm_num)
      norm_num
      generalize x % 8 = r at hr
      interval_cases r <;> decide
  · have hk1 : k ≤ 3 := hk
    have hfill : ∀ j < 4, ∃ fillValue : Nat,
        fillValueLoop 2 j 8 (2 % 256) (j % 256) = some fillValue ∧ fillValue < 256
        ∧ ∀ r < 4, (fillValue >>> ((8 / 2 - 1 - r) * 2)) &&& (0xFF >>> (8 - 2)) = j := by
      intro j hj
      interval_cases j
      · exact ⟨0, by decide, by decide, by decide⟩
      · exact ⟨85, by decide, by decide, by decide⟩
      · exact ⟨170, by decide, by decide, by decide⟩
      · exact ⟨255, by decide, by decide, by decide⟩
    obtain ⟨v, hv, hlt, hread⟩ := hfill k (by omega)
    exact ⟨v, hv, hlt, fun x => hread (x % (8 / 2)) (Nat.mod_lt _ (by norm_num))⟩
  · have hk1 : k ≤ 15 := hk
    have hfill : ∀ j < 16, ∃ fillValue : Nat,
        fillValueLoop 4 j 8 (4 % 256) (j % 256) = some fillValue ∧ fillValue < 256
        ∧ ∀ r < 2, (fillValue >>> ((8 / 4 - 1 - r) * 4)) &&& (0xFF >>> (8 - 4)) = j := by
      intro j hj
      refine ⟨j * 17, ?_, by omega, ?_⟩
      · interval_cases j <;> decide
      · interval_cases j <;> decide
    obtain ⟨v, hv, hlt, hread⟩ := hfill k (by omega)
    exact ⟨v, hv, hlt, fun x => hread (x % (8 / 4)) (Nat.mod_lt _ (by norm_num))⟩

theorem entryOffset_in_refresh (s : SMLayerIndexed RGB) (hc : Constructed s)
    (hal : 8 ∣ s.localWidth * s.entryBits) (x y : Nat) (hx : x < s.localWidth)
    (hy : y < s.localHeight) :
    indexedRefreshBuffer * INDEXED_BUFFER_SIZE s ≤ entryOffset s x y
    ∧ entryOffset s x y
        < indexedRefreshBuffer * INDEXED_BUFFER_SIZE s + INDEXED_BUFFER_SIZE s := by
  have hrow : y * INDEXED_BUFFER_ROW_SIZE s + INDEXED_BUFFER_ROW_SIZE s
      ≤ INDEXED_BUFFER_ROW_SIZE s * s.localHeight := by
    have h := Nat.mul_le_mul_right (INDEXED_BUFFER_ROW_SIZE s) (Nat.succ_le_of_lt hy)
    rw [Nat.succ_mul, Nat.mul_comm s.localHeight] at h
    exact h
  have hoff : x * s.entryBits / 8 < INDEXED_BUFFER_ROW_SIZE s
      ∧ (s.entryBits = 8 → x < INDEXED_BUFFER_ROW_SIZE s) := by
    unfold INDEXED_BUFFER_ROW_SIZE
    rcases hc.bits with hb | hb | hb | hb <;> rw [hb] at hal ⊢ <;> omega
  unfold entryOffset INDEXED_BUFFER_SIZE indexedRefreshBuffer
  split
  · rename_i h8
    have := hoff.2 h8
    omega
  · have := hoff.1
    omega

/-- What `fillScreen` followed by `getPixel` gives when every row is a whole
number of bytes (`localWidth * entryBits` a multiple of 8) and the local
dimensions are those of the rotation: each hardware coordinate of the matrix
shows `palette[k]`, or is reported not drawn when `k = 0` is transparent. -/
theorem fillScreen_getPixel_aligned (s : SMLayerIndexed RGB) (hc : Constructed s)
    (hdims : RotatedDims s) (hal : 8 ∣ s.localWidth * s.entryBits)
    (hw : s.matrixWidth < 65536) (hh : s.matrixHeight < 65536)
    (k : Nat) (hk : k ≤ s.entryMask) (hx hy : Nat) (hxl : hx < s.matrixWidth)
    (hyl : hy < s.matrixHeight) (xyPixel : RGB) :
    ∃ s' : SMLayerIndexed RGB, fillScreen s k = some s'
      ∧ getPixel s' hx hy xyPixel
        = if k = 0 ∧ s.zeroTransparent = true then (false, xyPixel)
          else (true, s.palette k) := by
  have hmask := hc.mask
  have hpack := hc.pack
  have hfill : ∃ fillValue : Nat,
      fillValueLoop s.entryBits k 8 (s.entryBits % 256) (k % 256) = some fillValue
      ∧ fillValue < 256
      ∧ (s.entryBits = 8 → fillValue = k)
      ∧ (s.entryBits ≠ 8 → ∀ x : Nat, (fillValue >>> entryShift s x) &&& s.entryMask = k) := by
    by_cases h8 : s.entryBits = 8
    · rw [h8] at hmask
      have hk8 : k ≤ 255 := by rw [hmask] at hk; exact hk
      refine ⟨k, ?_, by omega, fun _ => rfl, fun h => absurd h8 h⟩
      rw [h8, Nat.mod_eq_of_lt (show k < 256 by omega)]
      rfl
    · have hb : s.entryBits = 1 ∨ s.entryBits = 2 ∨ s.entryBits = 4 := by
        rcases hc.bits with h | h | h | h
        · exact Or.inl h
        · exact Or.inr (Or.inl h)
        · exact Or.inr (Or.inr h)
        · exact absurd h h8
      obtain ⟨v, hv, hlt, hread⟩ := fillValue_reads s.entryBits hb k (by rw [← hmask]; exact hk)
      refine ⟨v, hv, hlt, fun h => absurd h h8, fun _ x => ?_⟩
      rw [entryShift_eq s hc x, hpack, hmask]
      exact hread x
  obtain ⟨v, hv, hlt, hv8, hvp⟩ := hfill
  have hrot : s.rotation ≠ unrecognised := by
    intro h
    unfold RotatedDims at hdims
    rw [h] at hdims
    exact hdims
  obtain ⟨lx, ly, hloc, hlx, hly, -⟩ :=
    (rotation_maps_roundtrip s.rotation hrot s.matrixWidth s.matrixHeight hw hh).1
      hx hy hxl hyl
  have hlw : rotatedWidth s.rotation s.matrixWidth s.matrixHeight = s.localWidth := by
    unfold RotatedDims at hdims
    unfold rotatedWidth
    cases hr : s.rotation <;> rw [hr] at hdims <;> simp_all
  have hlh : rotatedHeight s.rotation s.matrixWidth s.matrixHeight = s.localHeight := by
    unfold RotatedDims at hdims
    unfold rotatedHeight
    cases hr : s.rotation <;> rw [hr] at hdims <;> simp_all
  rw [hlw] at hlx
  rw [hlh] at hly
  refine ⟨_, by unfold fillScreen; rw [hv], ?_⟩
  have hin := entryOffset_in_refresh s hc hal lx ly hlx hly
  have hb : ¬ (lx ≥ s.localWidth ∨ ly ≥ s.localHeight) := by omega
  have hentry : readEntry { s with
      indexedBitmap := memset s.indexedBitmap (indexedRefreshBuffer * INDEXED_BUFFER_SIZE s)
        v (INDEXED_BUFFER_SIZE s) } lx ly = k := by
    rw [readEntry_with]
    simp only [memset, hin, and_self, if_true, Nat.mod_eq_of_lt hlt]
    split
    · rename_i h8
      exact hv8 h8
    · rename_i h8
      exact hvp h8 lx
  unfold getPixel
  simp only [hloc, hb, if_false, hentry]
  by_cases hk0 : k = 0
  · cases hz : s.zeroTransparent <;> simp [hk0]
  · simp [hk0]

/-! ## The guards of `drawPixel` -/

/-- The index test of line 178 rejects what is above `paletteSize`. -/
theorem drawPixel_above_paletteSize (s : SMLayerIndexed RGB) (x y : Int) (index : Nat)
    (hi : index > s.paletteSize) : drawPixel s x y index = s := by
  unfold drawPixel
  rw [if_pos hi]

/-- The bounds test of line 197 rejects every out-of-bounds local coordinate when
the rotation is 0 or 180 degrees, or the matrix is square. -/
theorem drawPixel_out_of_bounds_noop (s : SMLayerIndexed RGB) (hdims : RotatedDims s)
    (hsq : s.rotation = rotation0 ∨ s.rotation = rotation180
      ∨ s.matrixWidth = s.matrixHeight)
    (x y : Int) (index : Nat)
    (hout : x < 0 ∨ x ≥ (s.localWidth : Int) ∨ y < 0 ∨ y ≥ (s.localHeight : Int)) :
    drawPixel s x y index = s := by
  unfold drawPixel
  split
  · rfl
  · have hchk : (toHW s.rotation s.matrixWidth s.matrixHeight x y).1 < 0
        ∨ (toHW s.rotation s.matrixWidth s.matrixHeight x y).2 < 0
        ∨ (toHW s.rotation s.matrixWidth s.matrixHeight x y).1 ≥ (s.localWidth : Int)
        ∨ (toHW s.rotation s.matrixWidth s.matrixHeight x y).2 ≥ (s.localHeight : Int) := by
      unfold RotatedDims at hdims
      cases hr : s.rotation <;> rw [hr] at hdims hsq <;>
        simp only [toHW, reduceCtorEq, if_false, if_true, false_or] at hsq hdims ⊢ <;>
        omega
    simp only [hchk, if_true]

/-! ## Where the code departs from its description -/

/-- C10: the row stride of the code is the rounded-down quotient.  For a 1-bit
layer 12 pixels wide it is 1 byte, the rounded-up quotient is 2, and the 12
entries of a row do not fit in the stride: pixel 8 of row 0 is stored in the byte
of pixel 0 of row 1. -/
theorem row_size_truncates :
    INDEXED_BUFFER_ROW_SIZE (sampleLayer 1 2 12 2 rotation0 12 2) = 1
    ∧ (12 * 1 + 7) / 8 = 2
    ∧ 8 * INDEXED_BUFFER_ROW_SIZE (sampleLayer 1 2 12 2 rotation0 12 2) < 12 * 1
    ∧ INDEXED_BUFFER_SIZE (sampleLayer 1 2 12 2 rotation0 12 2) = 1 * 2
    ∧ entryOffset (sampleLayer 1 2 12 2 rotation0 12 2) 8 0
        = entryOffset (sampleLayer 1 2 12 2 rotation0 12 2) 0 1 := by
  decide

/-- C4: on a 1-bit layer 12 pixels wide and 1 high, at rotation 0 and with index
0 transparent, `fillScreen(1)` returns and fills the one byte of the refresh
buffer; `getPixel(8, 0)` then reads the byte after it and reports the pixel as
not drawn, while `getPixel(7, 0)` returns `palette[1]`. -/
theorem fillScreen_misses_partial_byte :
    (fillScreen (sampleLayer 1 2 12 1 rotation0 12 1) 1).map
        (fun s' => (getPixel s' 8 0 77, getPixel s' 7 0 77, s'.indexedBitmap 1,
          s'.indexedBitmap 2))
      = some ((false, 77), (true, 1), 255, 0) := by
  decide

/-- C7: at rotation 90 on a 4 by 2 matrix (local size 2 by 4) the local
coordinate `(2, 2)` has `x = localWidth`, yet `drawPixel(2, 2, 1)` passes the
bounds check, which compares the mapped coordinate `(1, 2)` with the local
dimensions, and changes byte 6 of the backing region. -/
theorem drawPixel_out_of_bounds_writes :
    RotatedDims (sampleLayer 4 16 4 2 rotation90 2 4)
    ∧ ¬ ((2 : Int) < ((sampleLayer 4 16 4 2 rotation90 2 4).localWidth : Int))
    ∧ toHW rotation90 4 2 2 2 = (1, 2)
    ∧ (sampleLayer 4 16 4 2 rotation90 2 4).indexedBitmap 6 = 0
    ∧ (drawPixel (sampleLayer 4 16 4 2 rotation90 2 4) 2 2 1).indexedBitmap 6 = 1 := by
  refine ⟨⟨rfl, rfl⟩, ?_⟩
  decide

/-- C8: on a 1-bit layer with a palette of 2 colours the index 2 is not below
`paletteSize`, yet `drawPixel(1, 0, 2)` is not a no-op: the test of line 178 is
`index > paletteSize`, and byte 1 of the backing region changes from 0 to 128. -/
theorem drawPixel_accepts_paletteSize :
    ¬ (2 < (sampleLayer 1 2 8 1 rotation0 8 1).paletteSize)
    ∧ (sampleLayer 1 2 8 1 rotation0 8 1).indexedBitmap 1 = 0
    ∧ (drawPixel (sampleLayer 1 2 8 1 rotation0 8 1) 1 0 2).indexedBitmap 1 = 128
    ∧ (drawPixel (sampleLayer 1 2 8 1 rotation0 8 1) 1 0 3).indexedBitmap 1 = 0 := by
  decide

/-- C9: on a 2-bit layer with a palette of 4 colours, `drawPixel(1, 0, 4)` with
the index equal to `paletteSize` changes the entry of the neighbouring pixel
`(0, 0)`, packed in the same byte, from 0 to 1, and `getPixel(0, 0)` from not
drawn to `palette[1]`. -/
theorem drawPixel_paletteSize_corrupts_neighbour :
    (sampleLayer 2 4 8 1 rotation0 8 1).paletteSize = 4
    ∧ readEntry (sampleLayer 2 4 8 1 rotation0 8 1) 0 0 = 0
    ∧ readEntry (drawPixel (sampleLayer 2 4 8 1 rotation0 8 1) 1 0 4) 0 0 = 1
    ∧ getPixel (sampleLayer 2 4 8 1 rotation0 8 1) 0 0 77 = (false, 77)
    ∧ getPixel (drawPixel (sampleLayer 2 4 8 1 rotation0 8 1) 1 0 4) 0 0 77 = (true, 1) := by
  decide

/-! ## `getPixel`: rejection and the entry read -/

theorem rotatedWidth_eq (s : SMLayerIndexed RGB) (hdims : RotatedDims s) :
    rotatedWidth s.rotation s.matrixWidth s.matrixHeight = s.localWidth := by
  unfold RotatedDims at hdims
  unfold rotatedWidth
  cases hr : s.rotation <;> rw [hr] at hdims <;> simp_all

theorem rotatedHeight_eq (s : SMLayerIndexed RGB) (hdims : RotatedDims s) :
    rotatedHeight s.rotation s.matrixWidth s.matrixHeight = s.localHeight := by
  unfold RotatedDims at hdims
  unfold rotatedHeight
  cases hr : s.rotation <;> rw [hr] at hdims <;> simp_all

theorem getPixel_unrecognised (s : SMLayerIndexed RGB) (hr : s.rotation = unrecognised)
    (hx hy : Nat) (xyPixel : RGB) : getPixel s hx hy xyPixel = (false, xyPixel) := by
  unfold getPixel
  rw [hr]
  rfl

theorem getPixel_outside (s : SMLayerIndexed RGB) (hdims : RotatedDims s)
    (hw : s.matrixWidth < 65536) (hh : s.matrixHeight < 65536)
    (hx hy : Nat) (hx16 : hx < 65536) (hy16 : hy < 65536)
    (hout : hx ≥ s.matrixWidth ∨ hy ≥ s.matrixHeight) (xyPixel : RGB) :
    getPixel s hx hy xyPixel = (false, xyPixel) := by
  unfold RotatedDims at hdims
  unfold getPixel
  cases hr : s.rotation <;> rw [hr] at hdims
  · have hb : hx ≥ s.localWidth ∨ hy ≥ s.localHeight := by omega
    simp only [toLocal, hb, if_true]
  · have hb : hy ≥ s.localWidth
        ∨ toUInt16 (((s.matrixWidth : Int) - 1) - hx) ≥ s.localHeight := by
      unfold toUInt16
      omega
    simp only [toLocal, hb, if_true]
  · have hb : toUInt16 (((s.matrixWidth : Int) - 1) - hx) ≥ s.localWidth
        ∨ toUInt16 (((s.matrixHeight : Int) - 1) - hy) ≥ s.localHeight := by
      unfold toUInt16
      omega
    simp only [toLocal, hb, if_true]
  · have hb : toUInt16 (((s.matrixHeight : Int) - 1) - hy) ≥ s.localWidth
        ∨ hx ≥ s.localHeight := by
      unfold toUInt16
      omega
    simp only [toLocal, hb, if_true]
  · exact absurd hdims id

/-- C11: with the local dimensions those of the rotation, `getPixel` at a 16-bit
hardware coordinate with `hx >= matrixWidth` or `hy >= matrixHeight` (the cases in
which the exact result of the rotation arithmetic is negative or not below the
local dimension) returns false and leaves the output colour alone, whatever the
backing region holds: the truncation to 16 bits of a negative intermediate is
never below the local dimension.  With an unrecognised rotation `getPixel`
returns false at every coordinate. -/
theorem getPixel_rejects_out_of_range (s : SMLayerIndexed RGB) (xyPixel : RGB)
    (hx hy : Nat) :
    (RotatedDims s → s.matrixWidth < 65536 → s.matrixHeight < 65536 →
      hx < 65536 → hy < 65536 → (hx ≥ s.matrixWidth ∨ hy ≥ s.matrixHeight) →
      ∀ m : Nat → Nat,
        getPixel { s with indexedBitmap := m } hx hy xyPixel = (false, xyPixel))
    ∧ (RotatedDims s → s.matrixWidth < 65536 → s.matrixHeight < 65536 →
        hx < 65536 → hx ≥ s.matrixWidth →
        (s.rotation = rotation180 →
          ((s.matrixWidth : Int) - 1) - hx < 0
            ∧ toUInt16 (((s.matrixWidth : Int) - 1) - hx) ≥ s.localWidth)
        ∧ (s.rotation = rotation90 →
          ((s.matrixWidth : Int) - 1) - hx < 0
            ∧ toUInt16 (((s.matrixWidth : Int) - 1) - hx) ≥ s.localHeight))
    ∧ (s.rotation = unrecognised → getPixel s hx hy xyPixel = (false, xyPixel)) := by
  refine ⟨?_, ?_, ?_⟩
  · intro hdims hw hh hx16 hy16 hout m
    exact getPixel_outside { s with indexedBitmap := m } hdims hw hh hx hy hx16 hy16 hout
      xyPixel
  · intro hdims hw hh hx16 hout
    unfold RotatedDims at hdims
    constructor
    · intro hr
      rw [hr] at hdims
      unfold toUInt16
      omega
    · intro hr
      rw [hr] at hdims
      unfold toUInt16
      omega
  · intro hr
    exact getPixel_unrecognised s hr hx hy xyPixel

/-- The entry of local pixel `(lx, ly)` as the description of `getPixel` gives
it: the byte at `refreshBase + ly * rowSize + lx` for 8-bit entries, otherwise the
byte at `refreshBase + ly * rowSize + lx * entryBits / 8`, shifted right by
`(entryPack - 1 - lx mod entryPack) * entryBits` and masked. -/
theorem readEntry_eq (s : SMLayerIndexed RGB) (hc : Constructed s) (lx ly : Nat) :
    readEntry s lx ly
      = if s.entryBits = 8 then
          s.indexedBitmap (INDEXED_BUFFER_SIZE s + ly * INDEXED_BUFFER_ROW_SIZE s + lx)
        else
          (s.indexedBitmap (INDEXED_BUFFER_SIZE s + ly * INDEXED_BUFFER_ROW_SIZE s
              + lx * s.entryBits / 8)
            >>> ((s.entryPack - 1 - lx % s.entryPack) * s.entryBits)) &&& s.entryMask := by
  unfold readEntry
  rw [entryShift_eq s hc lx]
  simp [indexedRefreshBuffer]

theorem getPixel_inside (s : SMLayerIndexed RGB) (lx ly : Nat) (hx hy : Nat)
    (hloc : toLocal s.rotation s.matrixWidth s.matrixHeight hx hy = some (lx, ly))
    (hlx : lx < s.localWidth) (hly : ly < s.localHeight) (xyPixel : RGB) :
    getPixel s hx hy xyPixel
      = if readEntry s lx ly = 0 ∧ s.zeroTransparent = true then (false, xyPixel)
        else (true, s.palette (readEntry s lx ly)) := by
  have hb : ¬ (lx ≥ s.localWidth ∨ ly ≥ s.localHeight) := by omega
  unfold getPixel
  simp only [hloc, hb, if_false]
  by_cases h0 : readEntry s lx ly = 0
  · cases hz : s.zeroTransparent <;> simp [h0]
  · simp [h0]

/-- C11 at a concrete input: rotation 180 of a 4 by 2 matrix, hardware column 4,
where `(4 - 1) - 4` is negative and truncates to 65535. -/
theorem getPixel_rejects_out_of_range_witness :
    (∀ m : Nat → Nat,
      getPixel { sampleLayer 4 16 4 2 rotation180 4 2 with indexedBitmap := m } 4 0 77
        = (false, 77))
    ∧ ((4 : Int) - 1) - (4 : Nat) < 0
    ∧ toUInt16 (((4 : Nat) : Int) - 1 - (4 : Nat)) = 65535 := by
  have h := getPixel_rejects_out_of_range (sampleLayer 4 16 4 2 rotation180 4 2) 77 4 0
  refine ⟨h.1 ⟨rfl, rfl⟩ (by decide) (by decide) (by decide) (by decide)
    (Or.inl (by decide)), by decide, by decide⟩

/-- C12: at a hardware coordinate inside the matrix (the local dimensions being
those of the rotation) `getPixel` takes the local coordinate `(lx, ly)` that the
rotation assigns to it, reads its entry from the refresh buffer (the byte at
`bufferSize + ly * rowSize + lx` for 8-bit entries, otherwise the byte at
`bufferSize + ly * rowSize + lx * entryBits / 8` shifted right by
`(entryPack - 1 - lx mod entryPack) * entryBits` and masked with `entryMask`), and
returns false with the output colour unchanged exactly when the entry is 0 and
index 0 is transparent, and true with the colour `palette[entry]` otherwise. -/
theorem getPixel_reads_refresh_entry (s : SMLayerIndexed RGB) (hc : Constructed s)
    (hdims : RotatedDims s) (hw : s.matrixWidth < 65536) (hh : s.matrixHeight < 65536)
    (hx hy : Nat) (hxl : hx < s.matrixWidth) (hyl : hy < s.matrixHeight) (xyPixel : RGB) :
    ∃ lx ly entry : Nat,
      toLocal s.rotation s.matrixWidth s.matrixHeight hx hy = some (lx, ly)
      ∧ lx < s.localWidth ∧ ly < s.localHeight
      ∧ toHW s.rotation s.matrixWidth s.matrixHeight lx ly = ((hx : Int), (hy : Int))
      ∧ entry
        = (if s.entryBits = 8 then
            s.indexedBitmap (INDEXED_BUFFER_SIZE s + ly * INDEXED_BUFFER_ROW_SIZE s + lx)
          else
            (s.indexedBitmap (INDEXED_BUFFER_SIZE s + ly * INDEXED_BUFFER_ROW_SIZE s
                + lx * s.entryBits / 8)
              >>> ((s.entryPack - 1 - lx % s.entryPack) * s.entryBits)) &&& s.entryMask)
      ∧ (getPixel s hx hy xyPixel).1 = !(decide (entry = 0) && s.zeroTransparent)
      ∧ getPixel s hx hy xyPixel
        = if entry = 0 ∧ s.zeroTransparent = true then (false, xyPixel)
          else (true, s.palette entry) := by
  have hrot : s.rotation ≠ unrecognised := by
    intro h
    unfold RotatedDims at hdims
    rw [h] at hdims
    exact hdims
  obtain ⟨lx, ly, hloc, hlx, hly, hback⟩ :=
    (rotation_maps_roundtrip s.rotation hrot s.matrixWidth s.matrixHeight hw hh).1
      hx hy hxl hyl
  rw [rotatedWidth_eq s hdims] at hlx
  rw [rotatedHeight_eq s hdims] at hly
  have hget := getPixel_inside s lx ly hx hy hloc hlx hly xyPixel
  refine ⟨lx, ly, readEntry s lx ly, hloc, hlx, hly, hback, readEntry_eq s hc lx ly, ?_, hget⟩
  rw [hget]
  by_cases h0 : readEntry s lx ly = 0
  · cases hz : s.zeroTransparent <;> simp [h0]
  · simp [h0]

/-- C12 at a concrete input: rotation 90 of a 4 by 2 matrix with 4-bit entries,
hardware pixel `(3, 1)`. -/
theorem getPixel_reads_refresh_entry_witness :
    ∃ lx ly entry : Nat,
      toLocal rotation90 4 2 3 1 = some (lx, ly)
      ∧ getPixel (sampleLayer 4 16 4 2 rotation90 2 4) 3 1 77
        = if entry = 0 ∧ (sampleLayer 4 16 4 2 rotation90 2 4).zeroTransparent = true
          then (false, 77)
          else (true, (sampleLayer 4 16 4 2 rotation90 2 4).palette entry) := by
  obtain ⟨lx, ly, entry, hloc, -, -, -, -, -, hget⟩ :=
    getPixel_reads_refresh_entry (sampleLayer 4 16 4 2 rotation90 2 4)
      ⟨by decide, by decide, by decide⟩ ⟨rfl, rfl⟩ (by decide) (by decide) 3 1
      (by decide) (by decide) 77
  exact ⟨lx, ly, entry, hloc, hget⟩

/-! ## `fillRefreshRow` -/

theorem getPixel_flag_indep (s : SMLayerIndexed RGB) (hx hy : Nat) (c c' : RGB) :
    (getPixel s hx hy c).1 = (getPixel s hx hy c').1
    ∧ ((getPixel s hx hy c).1 = true → (getPixel s hx hy c).2 = (getPixel s hx hy c').2) := by
  unfold getPixel
  split
  · simp
  · simp only []
    split
    · simp
    · split <;> simp

theorem fillRefreshRow_loops_agree {OUT : Type} (s : SMLayerIndexed RGB) (toOut : RGB → OUT)
    (hardwareY : Nat) :
    ∀ (n i : Nat) (refreshRow : Nat → OUT) (currentPixel : RGB),
      fillRefreshRow_rgb48_loop s toOut hardwareY n i refreshRow currentPixel
        = fillRefreshRow_rgb24_loop s toOut hardwareY n i refreshRow currentPixel := by
  intro n
  induction n with
  | zero => intro i refreshRow currentPixel; rfl
  | succ n ih =>
    intro i refreshRow currentPixel
    simp only [fillRefreshRow_rgb48_loop, fillRefreshRow_rgb24_loop]
    split
    · exact ih _ _ _
    · exact ih _ _ _

/-- The two overloads run the same loop. -/
theorem fillRefreshRow_overloads_agree {OUT : Type} (s : SMLayerIndexed RGB)
    (toOut : RGB → OUT) (hardwareY : Nat) (refreshRow : Nat → OUT) (currentPixel : RGB) :
    fillRefreshRow_rgb48 s toOut hardwareY refreshRow currentPixel
      = fillRefreshRow_rgb24 s toOut hardwareY refreshRow currentPixel :=
  fillRefreshRow_loops_agree s toOut hardwareY _ _ _ _

theorem fillRefreshRow_loop_slots {OUT : Type} (s : SMLayerIndexed RGB) (toOut : RGB → OUT)
    (hardwareY : Nat) (c0 : RGB) :
    ∀ (n i : Nat) (refreshRow : Nat → OUT) (currentPixel : RGB),
      (∀ k : Nat, i ≤ k → k < i + n →
        (getPixel s (toUInt16 k) hardwareY c0).1 = false → s.zeroTransparent = true) →
      ∀ j : Nat,
        fillRefreshRow_rgb48_loop s toOut hardwareY n i refreshRow currentPixel j
          = if i ≤ j ∧ j < i + n ∧ (getPixel s (toUInt16 j) hardwareY c0).1 = true then
              toOut (getPixel s (toUInt16 j) hardwareY c0).2
            else refreshRow j := by
  intro n
  induction n with
  | zero =>
    intro i refreshRow currentPixel _ j
    have h : ¬ (i ≤ j ∧ j < i + 0 ∧ (getPixel s (toUInt16 j) hardwareY c0).1 = true) := by
      omega
    rw [if_neg h]
    rfl
  | succ n ih =>
    intro i refreshRow currentPixel hgood j
    have hflag := (getPixel_flag_indep s (toUInt16 i) hardwareY currentPixel c0).1
    have hcol := (getPixel_flag_indep s (toUInt16 i) hardwareY currentPixel c0).2
    have hrest : ∀ k : Nat, i + 1 ≤ k → k < i + 1 + n →
        (getPixel s (toUInt16 k) hardwareY c0).1 = false → s.zeroTransparent = true :=
      fun k h1 h2 => hgood k (by omega) (by omega)
    simp only [fillRefreshRow_rgb48_loop]
    by_cases hskip : (getPixel s (toUInt16 i) hardwareY currentPixel).1 = false
        ∧ s.zeroTransparent = true
    · rw [if_pos hskip, ih _ _ _ hrest j]
      by_cases hji : j = i
      · subst hji
        have h0 : (getPixel s (toUInt16 j) hardwareY c0).1 = false := by
          rw [← hflag]; exact hskip.1
        simp [h0]
      · have hiff : (i + 1 ≤ j ∧ j < i + 1 + n) ↔ (i ≤ j ∧ j < i + (n + 1)) := by omega
        by_cases hin : i ≤ j ∧ j < i + (n + 1)
        · have hin' := hiff.2 hin
          simp [hin.1, hin.2, hin'.1, hin'.2]
        · have hin' : ¬ (i + 1 ≤ j ∧ j < i + 1 + n) := fun h => hin (hiff.1 h)
          have e1 : ¬ (i + 1 ≤ j ∧ j < i + 1 + n
              ∧ (getPixel s (toUInt16 j) hardwareY c0).1 = true) :=
            fun h => hin' ⟨h.1, h.2.1⟩
          have e2 : ¬ (i ≤ j ∧ j < i + (n + 1)
              ∧ (getPixel s (toUInt16 j) hardwareY c0).1 = true) :=
            fun h => hin ⟨h.1, h.2.1⟩
          rw [if_neg e1, if_neg e2]
    · rw [if_neg hskip, ih _ _ _ hrest j]
      have htrue : (getPixel s (toUInt16 i) hardwareY c0).1 = true := by
        cases hf : (getPixel s (toUInt16 i) hardwareY c0).1
        · have hz := hgood i (le_refl _) (by omega) hf
          exact absurd ⟨by rw [hflag]; exact hf, hz⟩ hskip
        · rfl
      by_cases hji : j = i
      · subst hji
        have e1 : ¬ (j + 1 ≤ j ∧ j < j + 1 + n
            ∧ (getPixel s (toUInt16 j) hardwareY c0).1 = true) := by omega
        have e2 : j ≤ j ∧ j < j + (n + 1)
            ∧ (getPixel s (toUInt16 j) hardwareY c0).1 = true := ⟨le_refl _, by omega, htrue⟩
        rw [if_neg e1, if_pos e2]
        simp only [if_true]
        rw [hcol (by rw [hflag]; exact htrue)]
      · have hiff : (i + 1 ≤ j ∧ j < i + 1 + n) ↔ (i ≤ j ∧ j < i + (n + 1)) := by omega
        simp only [hji, if_false]
        by_cases hin : i ≤ j ∧ j < i + (n + 1)
        · have hin' := hiff.2 hin
          simp [hin.1, hin.2, hin'.1, hin'.2]
        · have hin' : ¬ (i + 1 ≤ j ∧ j < i + 1 + n) := fun h => hin (hiff.1 h)
          have e1 : ¬ (i + 1 ≤ j ∧ j < i + 1 + n
              ∧ (getPixel s (toUInt16 j) hardwareY c0).1 = true) :=
            fun h => hin' ⟨h.1, h.2.1⟩
          have e2 : ¬ (i ≤ j ∧ j < i + (n + 1)
              ∧ (getPixel s (toUInt16 j) hardwareY c0).1 = true) :=
            fun h => hin ⟨h.1, h.2.1⟩
          rw [if_neg e1, if_neg e2]

/-- What `fillRefreshRow` gives when index 0 is transparent: slot `i` below
`matrixWidth` gets the colour of `getPixel(i, hardwareY)` when that call returns
true and keeps its value when it returns false, and the slots from `matrixWidth`
on keep their values. -/
theorem fillRefreshRow_transparent {OUT : Type} (s : SMLayerIndexed RGB) (toOut : RGB → OUT)
    (hz : s.zeroTransparent = true) (hw : s.matrixWidth < 65536) (hardwareY : Nat)
    (refreshRow : Nat → OUT) (currentPixel : RGB) (i : Nat) :
    fillRefreshRow_rgb48 s toOut hardwareY refreshRow currentPixel i
      = if i < s.matrixWidth ∧ (getPixel s i hardwareY currentPixel).1 = true then
          toOut (getPixel s i hardwareY currentPixel).2
        else refreshRow i := by
  unfold fillRefreshRow_rgb48
  rw [fillRefreshRow_loop_slots s toOut hardwareY currentPixel s.matrixWidth 0 refreshRow
    currentPixel (fun _ _ _ _ => hz) i]
  by_cases hi : i < s.matrixWidth
  · have h16 : toUInt16 (i : Int) = i := by unfold toUInt16; omega
    simp [hi, h16]
  · have e1 : ¬ (0 ≤ i ∧ i < 0 + s.matrixWidth
        ∧ (getPixel s (toUInt16 i) hardwareY currentPixel).1 = true) := by omega
    have e2 : ¬ (i < s.matrixWidth ∧ (getPixel s i hardwareY currentPixel).1 = true) :=
      fun h => hi h.1
    rw [if_neg e1, if_neg e2]

/-! ## More places where the code departs from its description -/

/-- C13: with index 0 not transparent, on a 4 by 2 layer at rotation 0,
`fillRefreshRow` for the row `hardwareY = 2` below the matrix gets false from
`getPixel` at every column and yet overwrites every slot of the row, which held
9, with the value 77 its local `currentPixel` started with; both overloads do. -/
theorem fillRefreshRow_writes_stale_pixel :
    (getPixel { sampleLayer 4 16 4 2 rotation0 4 2 with zeroTransparent := false } 0 2 77).1
      = false
    ∧ fillRefreshRow_rgb48 { sampleLayer 4 16 4 2 rotation0 4 2 with zeroTransparent := false }
        id 2 (fun _ => 9) 77 0 = 77
    ∧ fillRefreshRow_rgb24 { sampleLayer 4 16 4 2 rotation0 4 2 with zeroTransparent := false }
        id 2 (fun _ => 9) 77 3 = 77
    ∧ fillRefreshRow_rgb48 { sampleLayer 4 16 4 2 rotation0 4 2 with zeroTransparent := false }
        id 2 (fun _ => 9) 77 4 = 9 := by
  decide

/-- C14: a layer and the same layer after `drawPixel(0, 0, 5)` agree on the draw
buffer (bytes 0 to 3), the palette, the geometry and the flags, and no copy is
pending or has run, yet `fillRefreshRow` for row 0 leaves slot 0 at 9 on the first
and sets it to 5 on the second: `getPixel` reads the refresh buffer. -/
theorem fillRefreshRow_reads_refresh_buffer :
    INDEXED_BUFFER_SIZE (sampleLayer 4 16 4 2 rotation0 4 2) = 4
    ∧ (∀ a < 4, (drawPixel (sampleLayer 4 16 4 2 rotation0 4 2) 0 0 5).indexedBitmap a
        = (sampleLayer 4 16 4 2 rotation0 4 2).indexedBitmap a)
    ∧ (drawPixel (sampleLayer 4 16 4 2 rotation0 4 2) 0 0 5).copyPending = false
    ∧ fillRefreshRow_rgb24 (sampleLayer 4 16 4 2 rotation0 4 2) id 0 (fun _ => 9) 77 0 = 9
    ∧ fillRefreshRow_rgb24 (drawPixel (sampleLayer 4 16 4 2 rotation0 4 2) 0 0 5) id 0
        (fun _ => 9) 77 0 = 5
    ∧ fillRefreshRow_rgb48 (drawPixel (sampleLayer 4 16 4 2 rotation0 4 2) 0 0 5) id 0
        (fun _ => 9) 77 0 = 5 := by
  decide

/-- C15: for a bitmap 8 pixels wide, whose rows are `ceil(8 / 8) = 1` byte long,
pixel `(0, 1)` is bit 7 of byte 1; with that bit set and every other byte zero
`getBitmapPixelAtXY(0, 1, 8, 2, bitmap)` returns false, because it reads byte
`1 * (8 / 8 + 1) + 0 = 2`. -/
theorem getBitmapPixelAtXY_row_stride :
    (8 + 7) / 8 = 1
    ∧ Nat.testBit ((fun a : Nat => if a = 1 then 0x80 else 0) (1 * ((8 + 7) / 8) + 0 / 8))
        (7 - 0 % 8) = true
    ∧ getBitmapPixelAtXY 0 1 8 2 (fun a => if a = 1 then 0x80 else 0) = false
    ∧ getBitmapPixelAtXY 0 1 8 2 (fun a => if a = 2 then 0x80 else 0) = true := by
  decide

/-- C18: on a 1-bit layer 12 pixels wide and 2 high at rotation 0,
`drawPixel(8, 0, 1)` changes what `getPixel` returns at the other in-bounds
coordinate `(0, 1)`, from not drawn to `palette[1]`: with a row stride of
`12 / 8 = 1` byte the two pixels are the same bit. -/
theorem drawPixel_changes_other_pixel :
    getPixel (sampleLayer 1 2 12 2 rotation0 12 2) 0 1 77 = (false, 77)
    ∧ getPixel (drawPixel (sampleLayer 1 2 12 2 rotation0 12 2) 8 0 1) 0 1 77 = (true, 1)
    ∧ getPixel (drawPixel (sampleLayer 1 2 12 2 rotation0 12 2) 8 0 1) 8 0 77 = (true, 1) := by
  decide

/-- C19: at rotation 180 on a 4 by 2 matrix `drawPixel(0, 0, 5)` maps the local
pixel to the hardware coordinate `(3, 1)`, but `getPixel(3, 1)` afterwards reports
the pixel as not drawn and `getPixel(0, 0)` returns `palette[5]`; at rotation 90 on
the same matrix (local size 2 by 4) `drawPixel(0, 0, 5)` maps the local pixel to
`(3, 0)` and the bounds check drops it, leaving the layer as it was. -/
theorem drawPixel_rotated_position :
    toHW rotation180 4 2 0 0 = (3, 1)
    ∧ getPixel (drawPixel (sampleLayer 4 16 4 2 rotation180 4 2) 0 0 5) 3 1 77 = (false, 77)
    ∧ getPixel (drawPixel (sampleLayer 4 16 4 2 rotation180 4 2) 0 0 5) 0 0 77 = (true, 5)
    ∧ RotatedDims (sampleLayer 4 16 4 2 rotation90 2 4)
    ∧ toHW rotation90 4 2 0 0 = (3, 0)
    ∧ drawPixel (sampleLayer 4 16 4 2 rotation90 2 4) 0 0 5
        = sampleLayer 4 16 4 2 rotation90 2 4
    ∧ getPixel (drawPixel (sampleLayer 4 16 4 2 rotation90 2 4) 0 0 5) 3 0 77
        = (false, 77) := by
  refine ⟨by decide, by decide, by decide, ⟨rfl, rfl⟩, by decide, rfl, by decide⟩

/-- C20: with a layer font 8 columns wide, a scroll font 3 columns wide, a glyph
row with all bits set and `x = -5`, the columns 5, 6 and 7 of the glyph are the
on-screen pixels `(0, 0)`, `(1, 0)` and `(2, 0)`, which the listed `drawPixel`
calls set (byte 1 becomes `0xE0`); `drawChar` returns at its first test, which
compares `x + scrollFont->Width` with 0, and leaves the layer as it was. -/
theorem drawChar_suppresses_visible_pixels :
    drawChar (fun _ _ _ => 0xFF) { Width := 8, Height := 1 } { Width := 3, Height := 1 }
        (sampleLayer 1 2 8 1 rotation0 8 1) (-5) 0 1 65
      = sampleLayer 1 2 8 1 rotation0 8 1
    ∧ (sampleLayer 1 2 8 1 rotation0 8 1).indexedBitmap 1 = 0
    ∧ (glyphPixels (fun _ _ _ => 0xFF) { Width := 8, Height := 1 } (-5) 0 1 65 1 0
        (sampleLayer 1 2 8 1 rotation0 8 1)).indexedBitmap 1 = 0xE0
    ∧ (drawChar (fun _ _ _ => 0xFF) { Width := 8, Height := 1 } { Width := 8, Height := 1 }
        (sampleLayer 1 2 8 1 rotation0 8 1) (-5) 0 1 65).indexedBitmap 1 = 0xE0 := by
  refine ⟨rfl, by decide, by decide, by decide⟩

/-! ## The swap handshake -/

theorem swapBuffersStep_frame (copy : Bool) (pc : SwapPoint) (s : SMLayerIndexed RGB) :
    (swapBuffersStep copy pc s).2.indexedBitmap = s.indexedBitmap
    ∧ (swapBuffersStep copy pc s).2.palette = s.palette := by
  unfold swapBuffersStep
  cases pc
  · simp only []; split <;> exact ⟨rfl, rfl⟩
  · exact ⟨rfl, rfl⟩
  · simp only []; split <;> exact ⟨rfl, rfl⟩
  · exact ⟨rfl, rfl⟩

theorem swapBuffers_nocopy (s : SMLayerIndexed RGB) (h : s.copyPending = false)
    (fuel : Nat) :
    swapBuffers (fuel + 4) false s = some { s with copyPending := true } := by
  simp [swapBuffers, swapBuffersFrom, swapBuffersStep, h]

theorem swapBuffersFrom_blocked (s : SMLayerIndexed RGB) (h : s.copyPending = true) :
    ∀ fuel : Nat, swapBuffersFrom true fuel waitServiced s = none
      ∧ swapBuffersFrom true fuel waitIdle s = none := by
  intro fuel
  induction fuel with
  | zero => exact ⟨rfl, rfl⟩
  | succ n ih =>
    constructor
    · simp only [swapBuffersFrom, swapBuffersStep, h, and_self, if_true, reduceCtorEq, if_false]
      exact ih.1
    · simp only [swapBuffersFrom, swapBuffersStep, h, if_true, reduceCtorEq, if_false]
      exact ih.2

theorem swapBuffers_copy_alone (s : SMLayerIndexed RGB) (fuel : Nat) :
    swapBuffers fuel true s = none := by
  unfold swapBuffers
  cases hp : s.copyPending
  · match fuel with
    | 0 => rfl
    | 1 => simp [swapBuffersFrom]
    | n + 2 =>
      simp only [swapBuffersFrom, swapBuffersStep, hp, reduceCtorEq, if_false, Bool.false_eq_true]
      exact (swapBuffersFrom_blocked { s with copyPending := true } rfl n).1
  · exact (swapBuffersFrom_blocked s hp fuel).2

theorem handshake_start (s : SMLayerIndexed RGB) (h : s.copyPending = false) :
    (SwapSystem.start s).Handshake := by
  unfold SwapSystem.Handshake SwapSystem.start
  simp [h]

theorem handshake_step (c : SwapSystem RGB) (e : SwapEvent) (h : c.Handshake) :
    (c.step e).Handshake := by
  obtain ⟨hcount, hset, hret⟩ := h
  cases e with
  | call copy =>
    unfold SwapSystem.step
    by_cases hpc : c.pc = returned
    · simp only [hpc, if_true]
      exact ⟨hcount, fun h => SwapPoint.noConfusion h, fun h => SwapPoint.noConfusion h⟩
    · simp only [hpc, if_false]
      exact ⟨hcount, hset, hret⟩
  | producer =>
    unfold SwapSystem.Handshake SwapSystem.step swapBuffersStep
    cases hpc : c.pc
    · cases hp : c.layer.copyPending
      · simp [hp] at hcount ⊢
        exact hcount
      · simp [hp] at hcount ⊢
        exact hcount
    · have hp := hset hpc
      simp [hp] at hcount ⊢
      exact hcount
    · cases hp : c.layer.copyPending
      · simp [hp] at hcount ⊢
        exact hcount
      · cases hcp : c.copy
        · simp [hp] at hcount ⊢
          exact hcount
        · simp [hp] at hcount ⊢
          exact hcount
    · have hr := hret hpc
      cases hp : c.layer.copyPending
      · simp [hp] at hcount ⊢
        exact hcount
      · cases hcp : c.copy
        · simp [hp] at hcount ⊢
          exact hcount
        · exact absurd (hr hcp) (by simp [hp])
  | consumer =>
    unfold SwapSystem.Handshake SwapSystem.step frameRefreshCallback handleBufferCopy
    cases hp : c.layer.copyPending
    · simp [hp] at hcount hset hret ⊢
      exact hcount
    · simp [hp] at hcount ⊢
      exact hcount

theorem handshake_run (events : List SwapEvent) :
    ∀ c : SwapSystem RGB, c.Handshake → (c.run events).Handshake := by
  induction events with
  | nil => intro c h; exact h
  | cons e rest ih =>
    intro c h
    unfold SwapSystem.run
    rw [List.foldl_cons]
    exact ih (c.step e) (handshake_step c e h)

theorem producer_blocked (c : SwapSystem RGB) (hpc : c.pc = waitIdle)
    (hp : c.layer.copyPending = true) : c.step SwapEvent.producer = c := by
  unfold SwapSystem.step swapBuffersStep
  cases c with
  | mk layer pc copy accepted copied =>
    simp only at hpc hp
    subst hpc
    simp [hp]

/-- C16: from a state with no copy pending `swapBuffers(false)` returns, after
four steps, the state with `copyPending` set and nothing else changed; no step of
`swapBuffers` changes the backing region or the palette; `swapBuffers(true)` leaves
its second wait only on a test that finds `copyPending` clear, so run on its own
it never returns, and in every sequence of producer steps and refresh callbacks a
returned `swapBuffers(true)` sees `copyPending` clear and every accepted request
copied. -/
theorem swapBuffers_requests_swap (s : SMLayerIndexed RGB) (h : s.copyPending = false) :
    (∀ fuel : Nat, swapBuffers (fuel + 4) false s = some { s with copyPending := true })
    ∧ (∀ (copy : Bool) (pc : SwapPoint) (s1 : SMLayerIndexed RGB),
        (swapBuffersStep copy pc s1).2.indexedBitmap = s1.indexedBitmap
        ∧ (swapBuffersStep copy pc s1).2.palette = s1.palette)
    ∧ (∀ s1 : SMLayerIndexed RGB,
        (swapBuffersStep true waitServiced s1).1 = returned ↔ s1.copyPending = false)
    ∧ (∀ fuel : Nat, swapBuffers fuel true s = none)
    ∧ (∀ events : List SwapEvent,
        ((SwapSystem.start s).run events).pc = returned →
        ((SwapSystem.start s).run events).copy = true →
        ((SwapSystem.start s).run events).layer.copyPending = false
        ∧ ((SwapSystem.start s).run events).accepted
            = ((SwapSystem.start s).run events).copied)
    ∧ ((SwapSystem.start s).run
          [SwapEvent.call true, SwapEvent.producer, SwapEvent.producer, SwapEvent.consumer,
            SwapEvent.producer]).pc = returned
    ∧ ((SwapSystem.start s).run
          [SwapEvent.call true, SwapEvent.producer, SwapEvent.producer, SwapEvent.consumer,
            SwapEvent.producer]).copied = 1 := by
  refine ⟨swapBuffers_nocopy s h, swapBuffersStep_frame, ?_, swapBuffers_copy_alone s, ?_, ?_, ?_⟩
  · intro s1
    unfold swapBuffersStep
    cases hp : s1.copyPending <;> simp
  · intro events hpc hcopy
    obtain ⟨hcount, -, hret⟩ := handshake_run events (SwapSystem.start s) (handshake_start s h)
    have hclear := hret hpc hcopy
    rw [hclear] at hcount
    exact ⟨hclear, by simpa using hcount⟩
  · simp [SwapSystem.run, SwapSystem.step, SwapSystem.start, swapBuffersStep,
      frameRefreshCallback, handleBufferCopy, h]
  · simp [SwapSystem.run, SwapSystem.step, SwapSystem.start, swapBuffersStep,
      frameRefreshCallback, handleBufferCopy, h]

/-- C16 at a concrete input: a 4-bit layer of 4 by 2 pixels with no copy
pending. -/
theorem swapBuffers_requests_swap_witness :
    swapBuffers 4 false (sampleLayer 4 16 4 2 rotation0 4 2)
      = some { sampleLayer 4 16 4 2 rotation0 4 2 with copyPending := true }
    ∧ swapBuffers 100 true (sampleLayer 4 16 4 2 rotation0 4 2) = none :=
  ⟨(swapBuffers_requests_swap (sampleLayer 4 16 4 2 rotation0 4 2) rfl).1 0,
    (swapBuffers_requests_swap (sampleLayer 4 16 4 2 rotation0 4 2) rfl).2.2.2.1 100⟩

/-- C17: start with no copy pending, the producer outside `swapBuffers`, and let
any sequence of events happen (the producer enters `swapBuffers`, the producer
takes a step of it, the consumer runs the refresh callback).  At every point the
requests accepted (assignments `copyPending = true`) are the bulk copies made plus
one if `copyPending` is set and plus nothing otherwise, so at most one request is
outstanding and none is lost or doubled; the producer is at the assignment only
while `copyPending` is clear; and a producer waiting at the first loop while
`copyPending` is set is left where it is by its next step, which neither sets the
flag nor returns. -/
theorem swap_requests_one_outstanding (s : SMLayerIndexed RGB) (h : s.copyPending = false)
    (events : List SwapEvent) :
    ((SwapSystem.start s).run events).accepted
        = ((SwapSystem.start s).run events).copied
          + (if ((SwapSystem.start s).run events).layer.copyPending = true then 1 else 0)
    ∧ ((SwapSystem.start s).run events).copied ≤ ((SwapSystem.start s).run events).accepted
    ∧ ((SwapSystem.start s).run events).accepted
        ≤ ((SwapSystem.start s).run events).copied + 1
    ∧ (((SwapSystem.start s).run events).pc = setPending →
        ((SwapSystem.start s).run events).layer.copyPending = false)
    ∧ (((SwapSystem.start s).run events).pc = waitIdle →
        ((SwapSystem.start s).run events).layer.copyPending = true →
        ((SwapSystem.start s).run events).step SwapEvent.producer
          = (SwapSystem.start s).run events) := by
  obtain ⟨hcount, hset, -⟩ := handshake_run events (SwapSystem.start s) (handshake_start s h)
  refine ⟨hcount, ?_, ?_, hset, producer_blocked _⟩
  · rw [hcount]
    omega
  · rw [hcount]
    split <;> omega

/-- C17 at a concrete input: a second `swapBuffers` entered while the first
request is outstanding takes two steps without effect, and after the refresh
callback and two more steps its request is the one outstanding. -/
theorem swap_requests_one_outstanding_witness :
    ((SwapSystem.start (sampleLayer 4 16 4 2 rotation0 4 2)).run
        [SwapEvent.call false, SwapEvent.producer, SwapEvent.producer, SwapEvent.producer,
          SwapEvent.call false, SwapEvent.producer, SwapEvent.producer]).accepted = 1
    ∧ ((SwapSystem.start (sampleLayer 4 16 4 2 rotation0 4 2)).run
        [SwapEvent.call false, SwapEvent.producer, SwapEvent.producer, SwapEvent.producer,
          SwapEvent.call false, SwapEvent.producer, SwapEvent.producer]).pc = waitIdle
    ∧ ((SwapSystem.start (sampleLayer 4 16 4 2 rotation0 4 2)).run
        [SwapEvent.call false, SwapEvent.producer, SwapEvent.producer, SwapEvent.producer,
          SwapEvent.call false, SwapEvent.producer, SwapEvent.producer, SwapEvent.consumer,
          SwapEvent.producer, SwapEvent.producer]).accepted
      = ((SwapSystem.start (sampleLayer 4 16 4 2 rotation0 4 2)).run
        [SwapEvent.call false, SwapEvent.producer, SwapEvent.producer, SwapEvent.producer,
          SwapEvent.call false, SwapEvent.producer, SwapEvent.producer, SwapEvent.consumer,
          SwapEvent.producer, SwapEvent.producer]).copied + 1 := by
  refine ⟨by decide, by decide, ?_⟩
  have h := (swap_requests_one_outstanding (sampleLayer 4 16 4 2 rotation0 4 2) rfl
    [SwapEvent.call false, SwapEvent.producer, SwapEvent.producer, SwapEvent.producer,
      SwapEvent.call false, SwapEvent.producer, SwapEvent.producer, SwapEvent.consumer,
      SwapEvent.producer, SwapEvent.producer]).1
  rw [h]
  decide

/-! ## The bitmap reader on widths that are not multiples of 8 -/

theorem two_pow_and_ne_zero (k b : Nat) : (2 ^ k &&& b ≠ 0) ↔ b.testBit k = true := by
  constructor
  · intro h
    by_contra hb
    apply h
    apply Nat.eq_of_testBit_eq
    intro j
    rw [Nat.testBit_and, Nat.testBit_two_pow, Nat.zero_testBit]
    by_cases hkj : k = j
    · subst hkj
      simp [hb]
    · simp [hkj]
  · intro hb h
    have hbit : (2 ^ k &&& b).testBit k = true := by
      rw [Nat.testBit_and, Nat.testBit_two_pow, hb]
      simp
    rw [h, Nat.zero_testBit] at hbit
    exact absurd hbit (by simp)

/-- For a width that is not a multiple of 8 the reader follows the row-major,
most-significant-bit-first format with rows of `ceil(width / 8)` bytes. -/
theorem getBitmapPixelAtXY_unaligned (x y width height : Nat) (bitmap : Nat → Nat)
    (hwidth : ¬ 8 ∣ width) :
    getBitmapPixelAtXY x y width height bitmap
      = Nat.testBit (bitmap (y * ((width + 7) / 8) + x / 8)) (7 - x % 8) := by
  have hstride : width / 8 + 1 = (width + 7) / 8 := by omega
  have hr : x % 8 < 8 := Nat.mod_lt _ (by norm_num)
  have hmask : toUInt8 ((0x80 >>> (x % 8) : Nat) : Int) = 2 ^ (7 - x % 8) := by
    unfold toUInt8
    generalize x % 8 = r at hr
    interval_cases r <;> decide
  unfold getBitmapPixelAtXY
  simp only [hstride, hmask]
  by_cases hb : (bitmap (y * ((width + 7) / 8) + x / 8)).testBit (7 - x % 8) = true
  · rw [hb]
    exact decide_eq_true ((two_pow_and_ne_zero _ _).2 hb)
  · have hne : ¬ (2 ^ (7 - x % 8) &&& bitmap (y * ((width + 7) / 8) + x / 8) ≠ 0) :=
      fun h => hb ((two_pow_and_ne_zero _ _).1 h)
    rw [decide_eq_false hne]
    simpa using hb

/-! ## `drawPixel` on byte-aligned rows changes one pixel -/

set_option maxRecDepth 100000 in
theorem keepsOther_1 : ∀ k < 8, ∀ j < 8, ∀ i < 2, ∀ old < 256,
    k = j ∨ keepsOther 1 k j i old = true := by
  decide

set_option maxRecDepth 100000 in
theorem keepsOther_2 : ∀ k < 4, ∀ j < 4, ∀ i < 4, ∀ old < 256,
    k = j ∨ keepsOther 3 (k * 2) (j * 2) i old = true := by
  decide

set_option maxRecDepth 100000 in
theorem keepsOther_4 : ∀ k < 2, ∀ j < 2, ∀ i < 16, ∀ old < 256,
    k = j ∨ keepsOther 15 (k * 4) (j * 4) i old = true := by
  decide

theorem packed_read_other (bits : Nat) (hb : bits = 1 ∨ bits = 2 ∨ bits = 4)
    (x x' old index : Nat) (hi : index ≤ 0xFF >>> (8 - bits)) (hold : old < 256)
    (hne : x % (8 / bits) ≠ x' % (8 / bits)) :
    ((packedWrite old (0xFF >>> (8 - bits)) index ((8 / bits - 1 - x % (8 / bits)) * bits)
        % 256) >>> ((8 / bits - 1 - x' % (8 / bits)) * bits)) &&& (0xFF >>> (8 - bits))
      = (old >>> ((8 / bits - 1 - x' % (8 / bits)) * bits)) &&& (0xFF >>> (8 - bits)) := by
  rw [packedWrite_mod]
  rcases hb with hb | hb | hb <;> subst hb <;> norm_num at hi hne ⊢
  · have h := keepsOther_1 (7 - x % 8) (by omega) (7 - x' % 8) (by omega) index (by omega)
      old hold
    rcases h with h | h
    · omega
    · simpa [keepsOther] using h
  · have h := keepsOther_2 (3 - x % 4) (by omega) (3 - x' % 4) (by omega) index (by omega)
      old hold
    rcases h with h | h
    · omega
    · simpa [keepsOther] using h
  · have h := keepsOther_4 (1 - x % 2) (by omega) (1 - x' % 2) (by omega) index (by omega)
      old hold
    rcases h with h | h
    · omega
    · simpa [keepsOther] using h

theorem row_col_unique (R a b a' b' : Nat) (hb : b < R) (hb' : b' < R)
    (h : a * R + b = a' * R + b') : a = a' ∧ b = b' := by
  have hR : 0 < R := by omega
  have ha : (a * R + b) / R = a := by
    rw [Nat.mul_comm, Nat.mul_add_div hR, Nat.div_eq_of_lt hb, Nat.add_zero]
  have ha' : (a' * R + b') / R = a' := by
    rw [Nat.mul_comm, Nat.mul_add_div hR, Nat.div_eq_of_lt hb', Nat.add_zero]
  have e : a = a' := by rw [← ha, ← ha', h]
  subst e
  exact ⟨rfl, by omega⟩

theorem col_byte_lt_row (s : SMLayerIndexed RGB) (hc : Constructed s)
    (hal : 8 ∣ s.localWidth * s.entryBits) (x : Nat) (hx : x < s.localWidth) :
    x * s.entryBits / 8 < INDEXED_BUFFER_ROW_SIZE s
    ∧ (s.entryBits = 8 → x < INDEXED_BUFFER_ROW_SIZE s) := by
  unfold INDEXED_BUFFER_ROW_SIZE
  rcases hc.bits with hb | hb | hb | hb <;> rw [hb] at hal ⊢ <;> omega

theorem readEntry_drawPixel_other (s : SMLayerIndexed RGB) (hc : Constructed s)
    (hrot : s.rotation = rotation0) (hal : 8 ∣ s.localWidth * s.entryBits)
    (hbytes : ∀ a : Nat, s.indexedBitmap a < 256)
    (x y : Nat) (hx : x < s.localWidth) (hy : y < s.localHeight)
    (x' y' : Nat) (hx' : x' < s.localWidth) (hne : (x', y') ≠ (x, y))
    (index : Nat) (hi : index ≤ s.paletteSize) (hm : index ≤ s.entryMask) :
    readEntry (drawPixel s x y index) x' y' = readEntry s x' y' := by
  rw [drawPixel_rotation0 s hrot x y hx hy index hi, readEntry_with]
  have hread : readEntry s x' y'
      = if s.entryBits = 8 then s.indexedBitmap (entryOffset s x' y')
        else (s.indexedBitmap (entryOffset s x' y') >>> entryShift s x') &&& s.entryMask := by
    have h := readEntry_with s s.indexedBitmap x' y'
    exact h
  rw [hread]
  have hcx := col_byte_lt_row s hc hal x hx
  have hcx' := col_byte_lt_row s hc hal x' hx'
  by_cases hoff : entryOffset s x' y' = entryOffset s x y
  · by_cases h8 : s.entryBits = 8
    · exfalso
      unfold entryOffset at hoff
      simp only [h8, if_true] at hoff
      have h := row_col_unique (INDEXED_BUFFER_ROW_SIZE s) y' x' y x (hcx'.2 h8) (hcx.2 h8)
        (by omega)
      exact hne (by rw [h.1, h.2])
    · have hb : s.entryBits = 1 ∨ s.entryBits = 2 ∨ s.entryBits = 4 := by
        rcases hc.bits with h | h | h | h
        · exact Or.inl h
        · exact Or.inr (Or.inl h)
        · exact Or.inr (Or.inr h)
        · exact absurd h h8
      have hoff' := hoff
      unfold entryOffset at hoff'
      simp only [h8, if_false] at hoff'
      have h := row_col_unique (INDEXED_BUFFER_ROW_SIZE s) y' (x' * s.entryBits / 8) y
        (x * s.entryBits / 8) hcx'.1 hcx.1 (by omega)
      have hxne : x' ≠ x := fun e => hne (by rw [e, h.1])
      have hmod : x % (8 / s.entryBits) ≠ x' % (8 / s.entryBits) := by
        have hdiv := h.2
        rcases hb with hb | hb | hb <;> rw [hb] at hdiv ⊢ <;> omega
      simp only [h8, if_false, store, hoff, if_true]
      rw [entryShift_eq s hc x, entryShift_eq s hc x', hc.pack, hc.mask]
      rw [hc.mask] at hm
      exact packed_read_other s.entryBits hb x x' _ index hm (hbytes _) hmod
  · simp only [store, hoff, if_false]

/-- What holds of `drawPixel` when every row is a whole number of bytes: at
rotation 0, for an in-bounds pixel and an index that fits the entry mask, the
result of `getPixel` at every other in-bounds coordinate is what it was. -/
theorem drawPixel_one_pixel_aligned (s : SMLayerIndexed RGB) (hc : Constructed s)
    (hrot : s.rotation = rotation0) (hal : 8 ∣ s.localWidth * s.entryBits)
    (hbytes : ∀ a : Nat, s.indexedBitmap a < 256)
    (x y : Nat) (hx : x < s.localWidth) (hy : y < s.localHeight)
    (x' y' : Nat) (hx' : x' < s.localWidth) (hy' : y' < s.localHeight)
    (hne : (x', y') ≠ (x, y))
    (index : Nat) (hi : index ≤ s.paletteSize) (hm : index ≤ s.entryMask) (xyPixel : RGB) :
    getPixel (drawPixel s x y index) x' y' xyPixel = getPixel s x' y' xyPixel := by
  obtain ⟨hp, -, -, -, -, hmw, hmh, hlw, hlh, hr, hz, -⟩ := drawPixel_fields s x y index
  have h1 := getPixel_inside (drawPixel s x y index) x' y' x' y'
    (by rw [hr, hrot]; rfl) (by rw [hlw]; exact hx') (by rw [hlh]; exact hy') xyPixel
  have h2 := getPixel_inside s x' y' x' y' (by rw [hrot]; rfl) hx' hy' xyPixel
  rw [h1, h2, readEntry_drawPixel_other s hc hrot hal hbytes x y hx hy x' y' hx' hne index hi hm,
    hp, hz]

/-! ## `drawChar` when the scroll font is at least as wide as the layer font -/

theorem drawPixel_rotation0_outside (s : SMLayerIndexed RGB) (hrot : s.rotation = rotation0)
    (x y : Int) (index : Nat)
    (hout : x < 0 ∨ x ≥ (s.localWidth : Int) ∨ y < 0 ∨ y ≥ (s.localHeight : Int)) :
    drawPixel s x y index = s := by
  unfold drawPixel
  split
  · rfl
  · have hchk : (toHW s.rotation s.matrixWidth s.matrixHeight x y).1 < 0
        ∨ (toHW s.rotation s.matrixWidth s.matrixHeight x y).2 < 0
        ∨ (toHW s.rotation s.matrixWidth s.matrixHeight x y).1 ≥ (s.localWidth : Int)
        ∨ (toHW s.rotation s.matrixWidth s.matrixHeight x y).2 ≥ (s.localHeight : Int) := by
      simp only [toHW, hrot, if_true]
      omega
    simp only [hchk, if_true]

theorem glyphRowPixels_outside (s : SMLayerIndexed RGB) (hrot : s.rotation = rotation0)
    (x y : Int) (index rowBits r : Nat) :
    ∀ n j : Nat,
      (∀ k : Nat, j ≤ k → k < j + n →
        toInt16 (x + k) < 0 ∨ toInt16 (x + k) ≥ (s.localWidth : Int)
          ∨ toInt16 (y + r) < 0 ∨ toInt16 (y + r) ≥ (s.localHeight : Int)) →
      glyphRowPixels x y index rowBits r n j s = s := by
  intro n
  induction n with
  | zero => intro j _; rfl
  | succ n ih =>
    intro j hout
    have hj := hout j (le_refl _) (by omega)
    have hstep : (if rowBits &&& (0x80 >>> j) ≠ 0 then
        drawPixel s (toInt16 (x + j)) (toInt16 (y + r)) index else s) = s := by
      split
      · exact drawPixel_rotation0_outside s hrot _ _ index hj
      · rfl
    rw [glyphRowPixels, hstep]
    exact ih (j + 1) (fun k h1 h2 => hout k (by omega) (by omega))

theorem glyphPixels_outside (getBitmapFontRowAtXY : Nat → Int → bitmap_font → Int)
    (layerFont : bitmap_font) (s : SMLayerIndexed RGB) (hrot : s.rotation = rotation0)
    (x y : Int) (index character : Nat) :
    ∀ n r : Nat,
      (∀ q : Nat, r ≤ q → q < r + n → ∀ k : Nat, k < layerFont.Width →
        toInt16 (x + k) < 0 ∨ toInt16 (x + k) ≥ (s.localWidth : Int)
          ∨ toInt16 (y + q) < 0 ∨ toInt16 (y + q) ≥ (s.localHeight : Int)) →
      glyphPixels getBitmapFontRowAtXY layerFont x y index character n r s = s := by
  intro n
  induction n with
  | zero => intro r _; rfl
  | succ n ih =>
    intro r hout
    rw [glyphPixels, glyphRowPixels_outside s hrot x y index _ r layerFont.Width 0
      (fun k _ h2 => hout r (le_refl _) (by omega) k (by omega))]
    exact ih (r + 1) (fun q h1 h2 => hout q (by omega) (by omega))

theorem glyphRowPixels_fields (x y : Int) (index rowBits r : Nat) :
    ∀ (n j : Nat) (s : SMLayerIndexed RGB),
      (glyphRowPixels x y index rowBits r n j s).rotation = s.rotation
      ∧ (glyphRowPixels x y index rowBits r n j s).localHeight = s.localHeight
      ∧ (glyphRowPixels x y index rowBits r n j s).localWidth = s.localWidth := by
  intro n
  induction n with
  | zero => intro j s; exact ⟨rfl, rfl, rfl⟩
  | succ n ih =>
    intro j s
    rw [glyphRowPixels]
    obtain ⟨h1, h2, h3⟩ := ih (j + 1)
      (if rowBits &&& (0x80 >>> j) ≠ 0 then
        drawPixel s (toInt16 (x + j)) (toInt16 (y + r)) index else s)
    rw [h1, h2, h3]
    split
    · obtain ⟨-, -, -, -, -, -, -, hlw, hlh, hr, -, -⟩ :=
        drawPixel_fields s (toInt16 (x + j)) (toInt16 (y + r)) index
      exact ⟨hr, hlh, hlw⟩
    · exact ⟨rfl, rfl, rfl⟩

theorem drawCharColumns_eq (x y : Int) (index tempBitmask r : Nat) :
    ∀ (n j : Nat) (s : SMLayerIndexed RGB),
      drawCharColumns x (y + r) index tempBitmask n j (0x80 >>> j) s
        = glyphRowPixels x y index tempBitmask r n j s := by
  intro n
  induction n with
  | zero => intro j s; rfl
  | succ n ih =>
    intro j s
    rw [drawCharColumns, glyphRowPixels]
    have hshift : (0x80 >>> j) >>> 1 = 0x80 >>> (j + 1) := by
      rw [← Nat.shiftRight_add]
    have hrow : toInt16 (y + (r : Int)) = toInt16 (y + r) := rfl
    rw [hshift]
    exact ih (j + 1) _

theorem toInt16_range (z : Int) : -32768 ≤ toInt16 z ∧ toInt16 z ≤ 32767 := by
  unfold toInt16
  omega

theorem toInt16_small (z : Int) (h1 : -32768 ≤ z) (h2 : z ≤ 32767) : toInt16 z = z := by
  unfold toInt16
  omega

theorem toInt16_wrapped (z : Int) (h1 : 32768 ≤ z) (h2 : z < 65536) : toInt16 z < 0 := by
  unfold toInt16
  omega

theorem drawCharRows_eq (getBitmapFontRowAtXY : Nat → Int → bitmap_font → Int)
    (layerFont : bitmap_font) (x y : Int) (hy1 : -32768 ≤ y) (hy2 : y ≤ 32767)
    (index character : Nat) (hH : layerFont.Height < 256) :
    ∀ (n r : Nat) (s : SMLayerIndexed RGB), s.rotation = rotation0 → s.localHeight < 65536 →
      r + n ≤ layerFont.Height →
      drawCharRows getBitmapFontRowAtXY layerFont x y index character n (y + r) s
        = glyphPixels getBitmapFontRowAtXY layerFont x y index character n r s := by
  intro n
  induction n with
  | zero => intro r s _ _ _; rfl
  | succ n ih =>
    intro r s hrot hlh hr
    rw [drawCharRows]
    have hnext : y + (r : Int) + 1 = y + ((r + 1 : Nat) : Int) := by push_cast; ring
    by_cases hneg : y + (r : Int) < 0
    · rw [if_pos hneg, hnext, ih (r + 1) s hrot hlh (by omega), glyphPixels,
        glyphRowPixels_outside s hrot x y index _ r layerFont.Width 0
          (fun k _ _ => Or.inr (Or.inr (Or.inl
            (by rw [toInt16_small _ (by omega) (by omega)]; exact hneg))))]
    · rw [if_neg hneg]
      by_cases hlow : y + (r : Int) ≥ (s.localHeight : Int)
      · rw [if_pos hlow]
        symm
        apply glyphPixels_outside getBitmapFontRowAtXY layerFont s hrot x y index character
        intro q hq1 hq2 k _
        by_cases hbig : y + (q : Int) ≤ 32767
        · exact Or.inr (Or.inr (Or.inr
            (by rw [toInt16_small _ (by omega) hbig]; omega)))
        · exact Or.inr (Or.inr (Or.inl (toInt16_wrapped _ (by omega) (by omega))))
      · have hcols := drawCharColumns_eq x y index
          (toUInt8 (getBitmapFontRowAtXY character r layerFont)) r layerFont.Width 0 s
        rw [Nat.shiftRight_zero] at hcols
        rw [if_neg hlow, hnext, glyphPixels, sub_eq_of_eq_add' rfl, hcols]
        obtain ⟨h1, h2, -⟩ := glyphRowPixels_fields x y index
          (toUInt8 (getBitmapFontRowAtXY character r layerFont)) r layerFont.Width 0 s
        exact ih (r + 1) _ (by rw [h1]; exact hrot) (by rw [h2]; exact hlh) (by omega)

/-- What holds of `drawChar` at rotation 0 when the scroll font is at least as
wide as the layer font (both are `unsigned char` sizes, `x` and `y` are `int16_t`
values): it leaves the layer as the listed `drawPixel` calls do, its early exits
skipping only calls that would have been rejected. -/
theorem drawChar_eq_glyphPixels (getBitmapFontRowAtXY : Nat → Int → bitmap_font → Int)
    (layerFont scrollFont : bitmap_font) (hfonts : layerFont.Width ≤ scrollFont.Width)
    (hW : layerFont.Width < 256) (hH : layerFont.Height < 256)
    (s : SMLayerIndexed RGB) (hrot : s.rotation = rotation0) (hlh : s.localHeight < 65536)
    (x y : Int) (hx1 : -32768 ≤ x) (hx2 : x ≤ 32767) (hy1 : -32768 ≤ y) (hy2 : y ≤ 32767)
    (index character : Nat) :
    drawChar getBitmapFontRowAtXY layerFont scrollFont s x y index character
      = glyphPixels getBitmapFontRowAtXY layerFont x y index character
          layerFont.Height 0 s := by
  unfold drawChar
  by_cases hexit : x + (scrollFont.Width : Int) < 0 ∨ x ≥ (s.localWidth : Int)
  · rw [if_pos hexit]
    symm
    apply glyphPixels_outside getBitmapFontRowAtXY layerFont s hrot x y index character
    intro q _ _ k hk
    rcases hexit with hleft | hright
    · exact Or.inl (by rw [toInt16_small _ (by omega) (by omega)]; omega)
    · by_cases hbig : x + (k : Int) ≤ 32767
      · exact Or.inr (Or.inl (by rw [toInt16_small _ (by omega) hbig]; omega))
      · exact Or.inl (toInt16_wrapped _ (by omega) (by omega))
  · rw [if_neg hexit]
    have h := drawCharRows_eq getBitmapFontRowAtXY layerFont x y hy1 hy2 index character hH
      layerFont.Height 0 s hrot hlh (by omega)
    simpa using h

end SmartMatrix
